import Mathlib

/-!
zapm: the size-bounded rotating log sink (logger.go)

A shallow embedding of `logger.go` and the properties of its level parser,
its write path, its rotation, its retention pass and its background
compression task.

Modelling decisions, all of them visible in the definitions below.

* The operating system is a deterministic function of an explicit answer
  record (`Sys`): which calls fail, what the clock reads, how many bytes a
  short write gets through.  The log directory is a list of entries; every
  call that the code issues is appended to a trace, so that "a rotation was
  performed" or "nothing was done" are statements about the trace.
* A path is identified with its base name inside the sink's directory
  (`filepath.Dir`, `filepath.Base` and `filepath.Join` are not modelled:
  the directory listed by `cleanup` is the one that holds the active file).
* `int64` counters are integers without wrap-around: the counter is bounded
  by the length of a file and the payload by the length of a slice in memory.
* A Go run-time panic is the result `none`.
* `os.ReadDir` lists the entries in the order of the list.  The order of a
  listing matters to the retention pass only where two modification times are
  equal; the general statements below hold for every order, and the
  evaluations below are on pairwise distinct modification times.
* The mutex is not modelled: an operation is one atomic step.  The goroutine
  started by `rotate` is recorded in the trace (`Call.spawn`) and its body is
  the separate function `compressTask`; it is not interleaved with the sink.
  What is proved about the files that completed rotations leave is therefore
  stated for compress = false, where the code starts no goroutine.
-/

namespace Zapm

/-! ## Strings -/

/-- One step of decoding a Go string: a code point, or a byte that is not part
of a valid UTF-8 sequence. -/
inductive Rune where
  | code (n : Nat)
  | bad (b : Nat)
deriving DecidableEq, Repr

abbrev GoString := List Rune

/-- A string literal as a Go string. -/
def lit (s : String) : GoString := s.toList.map (fun c => Rune.code c.toNat)

/-- The function unicode.ToUpper on one code point.  ASCII is the fixed
offset; the other code points go through the case table `tbl` of the Go
standard library, which is not part of the repository. -/
def unicodeToUpper (tbl : Nat → Nat) (n : Nat) : Nat :=
  if 97 ≤ n ∧ n ≤ 122 then n - 32
  else if n < 128 then n
  else tbl n

/-- The function strings.ToUpper: every code point is mapped by
unicode.ToUpper, a byte that does not decode is replaced by U+FFFD. -/
def ToUpper (tbl : Nat → Nat) (s : GoString) : GoString :=
  s.map (fun r => match r with
    | Rune.code n => Rune.code (unicodeToUpper tbl n)
    | Rune.bad _ => Rune.code 65533)

/-! ## Levels -/

abbrev LogLevel := Int

def DEBUG : LogLevel := 0
def INFO : LogLevel := 1
def WARN : LogLevel := 2
def ERROR : LogLevel := 3
def FATAL : LogLevel := 4

abbrev Bytes := List UInt8

/-- The bytes of an ASCII literal. -/
def ascii (s : String) : Bytes := s.toList.map (fun c => UInt8.ofNat c.toNat)

/-- The map LogLevelNames; a key that is absent gives the empty string. -/
def LogLevelNames (level : LogLevel) : Bytes :=
  if level = DEBUG then ascii "DEBUG"
  else if level = INFO then ascii "INFO"
  else if level = WARN then ascii "WARN"
  else if level = ERROR then ascii "ERROR"
  else if level = FATAL then ascii "FATAL"
  else []

/-- The function LogLevelFromString. -/
def LogLevelFromString (tbl : Nat → Nat) (level : GoString) : LogLevel :=
  let u := ToUpper tbl level
  if u = lit "DEBUG" then DEBUG
  else if u = lit "INFO" then INFO
  else if u = lit "WARN" then WARN
  else if u = lit "ERROR" then ERROR
  else if u = lit "FATAL" then FATAL
  else INFO

/-- Case folding of one rune, for the comparison the specification speaks of:
an upper-case ASCII letter becomes its lower-case letter. -/
def foldRune : Rune → Rune
  | Rune.code n => if 65 ≤ n ∧ n ≤ 90 then Rune.code (n + 32) else Rune.code n
  | Rune.bad b => Rune.bad b

/-- Equality of two strings under case-insensitive comparison. -/
def eqFold (s t : GoString) : Prop := s.map foldRune = t.map foldRune

instance (s t : GoString) : Decidable (eqFold s t) := by
  unfold eqFold; infer_instance

/-- The property of the case table that the parser relies on: the upper case
of a code point outside ASCII is not an upper-case ASCII letter, I and S
apart, so it is none of the letters of DEBUG, WARN, ERROR, FATAL.  (In
Unicode the only two code points outside ASCII with an ASCII upper case are
U+0131, to I, and U+017F, to S.) -/
def TableOK (tbl : Nat → Nat) : Prop :=
  ∀ n, 128 ≤ n → tbl n ≠ 73 → tbl n ≠ 83 → ¬ (65 ≤ tbl n ∧ tbl n ≤ 90)

/-! ## The file system -/

abbrev Name := List Char

/-- An entry of the sink's directory. -/
structure DirEntry where
  name : Name
  isDir : Bool
  modTime : Nat
  data : Bytes
deriving DecidableEq, Repr

/-- The calls the code issues, in the order it issues them. -/
inductive Call where
  | close
  | rename (old new : Name)
  | spawn (source : Name)
  | readDir
  | remove (n : Name)
  | openFile (n : Name)
  | write (n : Nat)
  | stderr
  | create (n : Name)
  | openRead (n : Name)
  | copy
  | gzClose
  | outClose
deriving DecidableEq, Repr

/-- The directory of the sink and the calls made so far. -/
structure World where
  dir : List DirEntry
  trace : List Call
deriving DecidableEq, Repr

def World.log (w : World) (c : Call) : World := { w with trace := w.trace ++ [c] }

/-- The answers of the operating system during one operation of the sink. -/
structure Sys where
  /-- The call file.Close returns an error. -/
  closeErr : Bool
  /-- The value of time.Now().Format("20060102-150405") inside rotate. -/
  stamp : Name
  /-- The call os.Rename returns an error. -/
  renameErr : Bool
  /-- The call os.ReadDir returns an error. -/
  readDirErr : Bool
  /-- The names for which os.Stat returns an error. -/
  statErr : Name → Bool
  /-- The names for which os.Remove returns an error. -/
  removeErr : Name → Bool
  /-- The call os.OpenFile returns an error. -/
  openErr : Bool
  /-- The append: none when all bytes are written, some k when the append
  returns an error after k bytes got through. -/
  shortWrite : Option Nat
  /-- The modification time given to what is created or written. -/
  time : Nat
  /-- The value of time.Now().Format("2006-01-02 15:04:05") inside Log. -/
  now : Bytes

def lookup (dir : List DirEntry) (n : Name) : Option DirEntry :=
  dir.find? (fun e => e.name == n)

/-- The entry of the old name takes the new name. -/
def renameEntry (old new : Name) (f : DirEntry) : DirEntry :=
  if f.name == old then { f with name := new } else f

/-- A file that has just been created. -/
def freshEntry (n : Name) (time : Nat) : DirEntry :=
  { name := n, isDir := false, modTime := time, data := [] }

/-- The call os.Rename on the directory: the entry changes its name and keeps
content and modification time; a file that has the new name is replaced. -/
def fsRename (dir : List DirEntry) (old new : Name) : Option (List DirEntry) :=
  match lookup dir old with
  | none => none
  | some e =>
    if old = new then some dir
    else
      match lookup dir new with
      | some t =>
        if t.isDir || e.isDir then none
        else some ((dir.filter (fun f => f.name != new)).map (renameEntry old new))
      | none => some (dir.map (renameEntry old new))

/-- The call os.OpenFile with O_CREATE, O_WRONLY and O_APPEND. -/
def fsOpenAppend (dir : List DirEntry) (n : Name) (time : Nat) : Option (List DirEntry) :=
  match lookup dir n with
  | some e => if e.isDir then none else some dir
  | none => some (dir ++ [freshEntry n time])

/-- Appending bytes to the file of that name. -/
def fsAppend (dir : List DirEntry) (n : Name) (p : Bytes) (time : Nat) : List DirEntry :=
  dir.map (fun e =>
    if e.name == n then
      { e with data := e.data ++ p, modTime := if p = [] then e.modTime else time }
    else e)

/-- The call os.Remove. -/
def fsRemove (dir : List DirEntry) (n : Name) : List DirEntry :=
  dir.filter (fun e => e.name != n)

/-- The function strings.HasPrefix on names. -/
def startsWith (s pre : Name) : Bool := pre.isPrefixOf s

/-! ## sort.Slice -/

/-- The inner loop of the insertion sort of sort.Slice: `x` moves toward the
front while `less x y` holds for the element `y` before it.  The list is the
part already sorted, last element first.  A comparison that panics stops the
sort. -/
def insertBack {α : Type} (less : α → α → Option Bool) (x : α) : List α → Option (List α)
  | [] => some [x]
  | y :: ys =>
    match less x y with
    | none => none
    | some true => (insertBack less x ys).map (fun r => y :: r)
    | some false => some (x :: y :: ys)

def sortLoop {α : Type} (less : α → α → Option Bool) : List α → List α → Option (List α)
  | acc, [] => some acc.reverse
  | acc, x :: xs =>
    match insertBack less x acc with
    | none => none
    | some acc2 => sortLoop less acc2 xs

/-- The function sort.Slice of the Go standard library, as the insertion sort
it runs on a slice of at most twelve elements.  Where the comparison is a
strict order on pairwise distinct keys every sorting algorithm returns this
same list. -/
def sortSlice {α : Type} (less : α → α → Option Bool) (xs : List α) : Option (List α) :=
  sortLoop less [] xs

/-! ## The sink -/

/-- The struct Logger.  The handle `file` is the flag `fileOpen`: an open
handle is the file at `filename`.  The field maxSize is a number of bytes:
NewLogger stores its argument times 1024 * 1024 and Write compares it with a
byte count (the comment on the field in the source says MB). -/
structure Logger where
  fileOpen : Bool
  filename : Name
  maxSize : Int
  maxFiles : Int
  size : Int
  level : LogLevel
  compress : Bool
  serviceTag : Bytes
deriving DecidableEq, Repr

/-- The call os.Stat followed by ModTime; none when Stat gives no FileInfo. -/
def statModTime (sys : Sys) (dir : List DirEntry) (n : Name) : Option Nat :=
  if sys.statErr n then none else (lookup dir n).map (fun e => e.modTime)

/-- The comparison closure of cleanup: both names are looked up with os.Stat,
the errors are dropped, and ModTime is called on both results.  A missing
result is a nil dereference. -/
def lessByModTime (sys : Sys) (dir : List DirEntry) (a b : Name) : Option Bool :=
  match statModTime sys dir a, statModTime sys dir b with
  | some ta, some tb => some (decide (tb < ta))
  | _, _ => none

/-- The loop of os.Remove calls over the excess files; errors are dropped. -/
def removeAll (sys : Sys) : List Name → World → World
  | [], w => w
  | n :: ns, w =>
    let w1 := w.log (Call.remove n)
    removeAll sys ns (if sys.removeErr n then w1 else { w1 with dir := fsRemove w1.dir n })

/-- The test of the selection loop of cleanup: not a directory, and the name
begins with the base name of the active file followed by a dot. -/
def isRotated (l : Logger) (f : DirEntry) : Bool :=
  !f.isDir && startsWith f.name (l.filename ++ ['.'])

/-- The list logFiles of cleanup before it is sorted. -/
def logFiles (l : Logger) (dir : List DirEntry) : List Name :=
  (dir.filter (isRotated l)).map (fun f => f.name)

/-- The method cleanup.  The result is none on a panic, otherwise whether an
error is returned, and the world after the call. -/
def cleanup (sys : Sys) (l : Logger) (w : World) : Option (Bool × World) :=
  let w1 := w.log Call.readDir
  if sys.readDirErr then some (true, w1)
  else
    match sortSlice (lessByModTime sys w1.dir) (logFiles l w1.dir) with
    | none => none
    | some sorted =>
      if (sorted.length : Int) > l.maxFiles then
        if l.maxFiles < 0 then none
        else some (false, removeAll sys (sorted.drop l.maxFiles.toNat) w1)
      else some (false, w1)

/-- The name of the rotated file. -/
def rotatedName (l : Logger) (sys : Sys) : Name := l.filename ++ ['.'] ++ sys.stamp

/-- The method rotate.  The goroutine that rotate starts when compress is set
is recorded (`Call.spawn`) and not run: for compress = true the result is the
schedule in which the goroutine has taken no step when Write returns, one
schedule of several, since its os.Create of the compressed file and its
os.Remove of the rotated file may come before the listing of cleanup.  For
compress = false no goroutine exists and the result is what the code does;
the statements about the files that completed rotations leave are made for
that case. -/
def rotate (sys : Sys) (l : Logger) (w : World) : Option (Bool × Logger × World) :=
  let w1 := w.log Call.close
  let l1 := { l with fileOpen := false }
  if !l.fileOpen || sys.closeErr then some (true, l1, w1)
  else
    let w2 := w1.log (Call.rename l.filename (rotatedName l sys))
    match (if sys.renameErr then none else fsRename w2.dir l.filename (rotatedName l sys)) with
    | none => some (true, l1, w2)
    | some dir3 =>
      let w3 : World := { w2 with dir := dir3 }
      let w4 := if l.compress then w3.log (Call.spawn (rotatedName l sys)) else w3
      match cleanup sys l1 w4 with
      | none => none
      | some (true, w5) => some (true, l1, w5)
      | some (false, w5) =>
        let w6 := w5.log (Call.openFile l.filename)
        match (if sys.openErr then none else fsOpenAppend w6.dir l.filename sys.time) with
        | none => some (true, l1, w6)
        | some dir7 => some (false, { l1 with fileOpen := true, size := 0 }, { w6 with dir := dir7 })

/-- The call file.Write (and file.WriteString): the number of bytes written,
whether an error is returned, and the world after the call. -/
def fileWrite (sys : Sys) (l : Logger) (w : World) (p : Bytes) : Nat × Bool × World :=
  if !l.fileOpen then (0, true, w.log (Call.write 0))
  else
    match sys.shortWrite with
    | none => (p.length, false, { (w.log (Call.write p.length)) with
        dir := fsAppend w.dir l.filename p sys.time })
    | some k => ((p.take k).length, true, { (w.log (Call.write (p.take k).length)) with
        dir := fsAppend w.dir l.filename (p.take k) sys.time })

/-- The method Write.  The result is none on a panic, otherwise the values
returned (the count and whether the error is non-nil) and the state after. -/
def Write (sys : Sys) (p : Bytes) (l : Logger) (w : World) :
    Option (Nat × Bool × Logger × World) :=
  if l.size + (p.length : Int) ≥ l.maxSize then
    match rotate sys l w with
    | none => none
    | some (true, l1, w1) => some (0, true, l1, w1)
    | some (false, l1, w1) =>
      match fileWrite sys l1 w1 p with
      | (n, err, w2) => some (n, err, { l1 with size := l1.size + (n : Int) }, w2)
  else
    match fileWrite sys l w p with
    | (n, err, w2) => some (n, err, { l with size := l.size + (n : Int) }, w2)

/-- The line that Log formats; `msg` is the result of fmt.Sprintf on the
format and the arguments of the call. -/
def logLine (sys : Sys) (l : Logger) (level : LogLevel) (msg : Bytes) : Bytes :=
  ascii "[" ++ sys.now ++ ascii "] [" ++ LogLevelNames level ++ ascii "] [" ++ l.serviceTag ++
    ascii "] " ++ msg ++ ascii "\n"

/-- The method Log. -/
def Log (sys : Sys) (level : LogLevel) (msg : Bytes) (l : Logger) (w : World) :
    Option (Logger × World) :=
  if level < l.level then some (l, w)
  else
    let line := logLine sys l level msg
    if l.size + (line.length : Int) ≥ l.maxSize then
      match rotate sys l w with
      | none => none
      | some (true, l1, w1) => some (l1, w1.log Call.stderr)
      | some (false, l1, w1) =>
        match fileWrite sys l1 w1 line with
        | (_, true, w2) => some (l1, w2.log Call.stderr)
        | (n, false, w2) => some ({ l1 with size := l1.size + (n : Int) }, w2)
    else
      match fileWrite sys l w line with
      | (_, true, w2) => some (l, w2.log Call.stderr)
      | (n, false, w2) => some ({ l with size := l.size + (n : Int) }, w2)

/-- A run of Write calls, one answer record for each. -/
def runWrites : List (Sys × Bytes) → Logger → World → Option (Logger × World)
  | [], l, w => some (l, w)
  | (sys, p) :: rest, l, w =>
    match Write sys p l w with
    | none => none
    | some (_, _, l1, w1) => runWrites rest l1 w1

/-! ## The compression task -/

/-- The answers of the operating system to the compression task. -/
structure GzSys where
  createErr : Bool
  openErr : Bool
  copyErr : Bool
  /-- The deferred gw.Close, which writes what the compressor still holds and
  the trailer, returns an error. -/
  gzCloseErr : Bool
  /-- The deferred out.Close returns an error. -/
  outCloseErr : Bool
  /-- How many bytes of the compressed stream reach the output file when the
  copy or the gzip close fails. -/
  flushed : Nat
  removeErr : Bool
  time : Nat

/-- The call os.Create: the file is created, or truncated when it exists. -/
def fsCreate (dir : List DirEntry) (n : Name) (time : Nat) : Option (List DirEntry) :=
  match lookup dir n with
  | some e =>
    if e.isDir then none
    else some (dir.map (fun f => if f.name == n then { f with data := [], modTime := time } else f))
  | none => some (dir ++ [{ name := n, isDir := false, modTime := time, data := [] }])

/-- The function compressLogFile; `gz` is the gzip encoder.  The result is
whether an error is returned, and the world after the call.  The deferred
calls run on every path after their defer statement, the last deferred
first, and what they return is dropped. -/
def compressLogFile (g : GzSys) (gz : Bytes → Bytes) (source : Name) (w : World) : Bool × World :=
  let dest := source ++ ".gz".toList
  let w1 := w.log (Call.create dest)
  match (if g.createErr then none else fsCreate w1.dir dest g.time) with
  | none => (true, w1)
  | some dir2 =>
    let w2 : World := { w1 with dir := dir2 }
    let w3 := w2.log (Call.openRead source)
    match (if g.openErr then none else (lookup w3.dir source).filter (fun e => !e.isDir)) with
    | none =>
      -- deferred: gw.Close, which writes the header and trailer of an empty stream, out.Close
      let out := if g.gzCloseErr then (gz []).take g.flushed else gz []
      (true, ({ w3 with dir := fsAppend w3.dir dest out g.time }.log Call.gzClose).log
        Call.outClose)
    | some src =>
      let w4 := w3.log Call.copy
      if g.copyErr then
        (true, ({ w4 with dir := fsAppend w4.dir dest ((gz src.data).take g.flushed) g.time }.log
          Call.gzClose).log Call.outClose)
      else
        let out := if g.gzCloseErr then (gz src.data).take g.flushed else gz src.data
        (false, ({ w4 with dir := fsAppend w4.dir dest out g.time }.log Call.gzClose).log
          Call.outClose)

/-- The body of the goroutine that rotate starts. -/
def compressTask (g : GzSys) (gz : Bytes → Bytes) (source : Name) (w : World) : World :=
  match compressLogFile g gz source w with
  | (true, w1) => w1.log Call.stderr
  | (false, w1) =>
    let w2 := w1.log (Call.remove source)
    if g.removeErr then w2 else { w2 with dir := fsRemove w2.dir source }

/-! ## The sort without failure -/

/-- The modification time that os.Stat reports for a name of the directory. -/
def modKey (dir : List DirEntry) (n : Name) : Nat :=
  ((lookup dir n).map (fun e => e.modTime)).getD 0

/-- The inner loop of the insertion sort when every comparison returns. -/
def insertDesc {α : Type} (key : α → Nat) (x : α) : List α → List α
  | [] => [x]
  | y :: ys => if key y < key x then y :: insertDesc key x ys else x :: y :: ys

def sortDescLoop {α : Type} (key : α → Nat) : List α → List α → List α
  | acc, [] => acc.reverse
  | acc, x :: xs => sortDescLoop key (insertDesc key x acc) xs

/-- The entries that the selection loop of cleanup picks. -/
def rotated (l : Logger) (dir : List DirEntry) : List DirEntry := dir.filter (isRotated l)

/-- How many of the selected entries are newer than the entry `e`. -/
def newerCount (l : Logger) (dir : List DirEntry) (e : DirEntry) : Nat :=
  ((rotated l dir).filter (fun f => decide (e.modTime < f.modTime))).length

/-! ## The stages of a rotation in which every call succeeds -/

/-- The world after the Close and the Rename of rotate have succeeded and the
compression task has been started. -/
def afterRename (sys : Sys) (l : Logger) (w : World) (dir3 : List DirEntry) : World :=
  let w3 : World :=
    { dir := dir3,
      trace := w.trace ++ [Call.close] ++ [Call.rename l.filename (rotatedName l sys)] }
  if l.compress then w3.log (Call.spawn (rotatedName l sys)) else w3

/-- The world after a retention pass in which the listing and every os.Stat
succeed. -/
def afterCleanup (sys : Sys) (l : Logger) (w : World) : World :=
  if ((logFiles l w.dir).length : Int) > l.maxFiles then
    removeAll sys ((sortDescLoop (modKey w.dir) [] (logFiles l w.dir)).drop
      l.maxFiles.toNat) (w.log Call.readDir)
  else w.log Call.readDir

/-- The names that such a retention pass hands to os.Remove. -/
def removedNames (l : Logger) (dir : List DirEntry) : List Name :=
  if ((logFiles l dir).length : Int) > l.maxFiles then
    (sortDescLoop (modKey dir) [] (logFiles l dir)).drop l.maxFiles.toNat
  else []

/-! ## Runs of writes in which every call succeeds -/

/-- Every call of the operation succeeds. -/
def AllOk (sys : Sys) : Prop :=
  sys.closeErr = false ∧ sys.renameErr = false ∧ sys.readDirErr = false ∧
  (∀ n, sys.statErr n = false) ∧ (∀ n, sys.removeErr n = false) ∧
  sys.openErr = false ∧ sys.shortWrite = none

/-- The stamps of the writes that rotate, in a run in which every write is
complete: the counter starts at `size`, and a write of p that finds
size + len(p) >= maxSize rotates and leaves the counter at len(p). -/
def rotationStamps (maxSize : Int) : Int → List (Sys × Bytes) → List Name
  | _, [] => []
  | size, (sys, p) :: ws =>
    if size + (p.length : Int) ≥ maxSize then
      sys.stamp :: rotationStamps maxSize (p.length : Int) ws
    else rotationStamps maxSize (size + (p.length : Int)) ws

/-- Whether an entry is the active file or a rotated file of the sink. -/
def isSinkFile (l : Logger) (e : DirEntry) : Bool :=
  e.name == l.filename || isRotated l e

/-- The number of bytes in the active file and the rotated files together. -/
def sinkBytes (l : Logger) (dir : List DirEntry) : Nat :=
  (dir.map (fun e => if isSinkFile l e then e.data.length else 0)).sum

/-- The number of entries that are the active file or a rotated file. -/
def sinkCount (l : Logger) (dir : List DirEntry) : Nat := dir.countP (isSinkFile l)

/-- The active file after a rotation and the append of p. -/
def activeEntry (l : Logger) (sys : Sys) (p : Bytes) : DirEntry :=
  { name := l.filename, isDir := false, modTime := sys.time, data := p }

/-- What a run of complete writes leaves: the run returns; the directory has
unique names; the bytes of the sink have grown by the payload lengths; the
payloads, in the order written, are cut into consecutive groups, the first
group `g0` following the content `a.data` that the active file had at the
start, each group under a name of its own, which is the active path or a
rotated name; every other file of the start is still there; there is one
group more than there were rotations; and no compression task is started. -/
def RunSpec (l : Logger) (w : World) (a : DirEntry) (ws : List (Sys × Bytes)) : Prop :=
  ∃ (l2 : Logger) (w2 : World) (g0 : Name × List Bytes) (gs : List (Name × List Bytes)),
    runWrites ws l w = some (l2, w2) ∧
    (w2.dir.map (fun e => e.name)).Nodup ∧
    sinkBytes l w2.dir = sinkBytes l w.dir + (ws.map (fun x => x.2.length)).sum ∧
    g0.2 ++ (gs.map (fun g => g.2)).flatten = ws.map (fun x => x.2) ∧
    ((g0 :: gs).map (fun g => g.1)).Nodup ∧
    (∀ g ∈ g0 :: gs, g.1 = l.filename ∨
      ∃ s ∈ rotationStamps l.maxSize l.size ws, g.1 = l.filename ++ ['.'] ++ s) ∧
    (∃ e ∈ w2.dir, e.name = g0.1 ∧ e.data = a.data ++ g0.2.flatten) ∧
    (∀ g ∈ gs, ∃ e ∈ w2.dir, e.name = g.1 ∧ e.data = g.2.flatten) ∧
    (∀ e ∈ w.dir, e.name ≠ l.filename → e ∈ w2.dir) ∧
    gs.length = (rotationStamps l.maxSize l.size ws).length ∧
    (∃ calls, w2.trace = w.trace ++ calls ∧ ∀ n, Call.spawn n ∉ calls)

/-! ## Runs of rotations -/

/-- The last m elements of a list. -/
def lastN {α : Type} (m : Nat) (xs : List α) : List α := xs.drop (xs.length - m)

/-- The rotated names that belong to a list of stamps. -/
def rotNames (l : Logger) (stamps : List Name) : List Name :=
  stamps.map (fun s => l.filename ++ ['.'] ++ s)

/-- Whether the name of an entry is the base name of the active file followed
by a dot, whatever kind of entry it is. -/
def nameMatches (l : Logger) (e : DirEntry) : Bool :=
  startsWith e.name (l.filename ++ ['.'])

/-! ## Sample states -/

/-- Answers in which every call succeeds, with the given rotation stamp. -/
def okSys (stamp : String) (time : Nat) : Sys :=
  { closeErr := false, stamp := stamp.toList, renameErr := false, readDirErr := false,
    statErr := fun _ => false, removeErr := fun _ => false, openErr := false,
    shortWrite := none, time := time, now := ascii "2024-01-01 00:00:00" }

/-- A payload of n bytes. -/
def payload (n : Nat) : Bytes := List.replicate n 120

/-- A sink on app.log with a threshold of 100 bytes and three retained files. -/
def smallLogger (size : Int) : Logger :=
  { fileOpen := true, filename := "app.log".toList, maxSize := 100, maxFiles := 3,
    size := size, level := INFO, compress := false, serviceTag := ascii "svc" }

/-- A directory that holds the active file alone. -/
def freshWorld (data : Bytes) : World :=
  { dir := [{ name := "app.log".toList, isDir := false, modTime := 1, data := data }],
    trace := [] }

/-- A sink as NewLogger builds it with maxSize 1, maxFiles 5 and compression:
the threshold is one mebibyte. -/
def mebiLogger : Logger :=
  { fileOpen := true, filename := "app.log".toList, maxSize := 1048576, maxFiles := 5,
    size := 0, level := INFO, compress := true, serviceTag := ascii "svc" }

/-- A directory with the empty active file, a file rotated earlier and the
compressed file that the background task has written for it. -/
def racedWorld : World :=
  { dir := [{ name := "app.log".toList, isDir := false, modTime := 5, data := [] },
            { name := "app.log.20240101-000000".toList, isDir := false, modTime := 3,
              data := payload 8 },
            { name := "app.log.20240101-000000.gz".toList, isDir := false, modTime := 4,
              data := payload 2 }],
    trace := [] }

/-- Answers in which every call succeeds but os.Stat on the rotated file that
the background task removes between the listing and the sort. -/
def racedSys : Sys :=
  { okSys "20240101-000001" 6 with
    statErr := fun n => n == "app.log.20240101-000000".toList }

/-- Answers for the compression task in which only the deferred gw.Close
fails, after nothing of the stream has reached the output file. -/
def gzCloseFails : GzSys :=
  { createErr := false, openErr := false, copyErr := false, gzCloseErr := true,
    outCloseErr := false, flushed := 0, removeErr := false, time := 9 }

/-- Answers in which the append returns an error after five bytes. -/
def shortSys : Sys := { okSys "s" 2 with shortWrite := some 5 }

/-- Answers in which every call succeeds but os.ReadDir. -/
def listFailSys : Sys := { okSys "20240101-000001" 6 with readDirErr := true }

/-- The counter of a sink and the length of the named file, if there is one. -/
def counterAndLength (n : Name) (r : Logger × World) : Int × Option Nat :=
  (r.1.size, (lookup r.2.dir n).map (fun e => e.data.length))

/-- A directory with five rotated files, the active file, a directory whose
name has the beginning of a rotated file, and a file of another name. -/
def crowdedWorld : World :=
  { dir := [{ name := "app.log".toList, isDir := false, modTime := 60, data := payload 4 },
            { name := "app.log.20240101-000001".toList, isDir := false, modTime := 10,
              data := payload 1 },
            { name := "app.log.20240101-000002".toList, isDir := false, modTime := 20,
              data := payload 2 },
            { name := "app.log.20240101-000003".toList, isDir := false, modTime := 30,
              data := payload 3 },
            { name := "app.log.20240101-000004".toList, isDir := false, modTime := 40,
              data := payload 4 },
            { name := "app.log.20240101-000005".toList, isDir := false, modTime := 50,
              data := payload 5 },
            { name := "app.log.d".toList, isDir := true, modTime := 5, data := [] },
            { name := "other.txt".toList, isDir := false, modTime := 6, data := payload 9 }],
    trace := [] }

/-- A sink on app.log that holds 60 of 100 bytes and retains one file. -/
def tightLogger : Logger := { smallLogger 60 with maxFiles := 1 }

/-- A directory in which a compressed file of an earlier rotation was written
after the last append to the active file. -/
def staleWorld : World :=
  { dir := [{ name := "app.log".toList, isDir := false, modTime := 1, data := payload 60 },
            { name := "app.log.20231231-235959.gz".toList, isDir := false, modTime := 2,
              data := payload 7 }],
    trace := [] }

/-- The active file of a sink that has not written yet. -/
def emptyActive : DirEntry :=
  { name := "app.log".toList, isDir := false, modTime := 1, data := [] }

/-- A sink on app.log with a threshold of 100 bytes and five retained files. -/
def roomyLogger : Logger := { smallLogger 0 with maxFiles := 5 }

/-- Three complete writes, the second and the third of which rotate, with
different stamps. -/
def spacedWrites : List (Sys × Bytes) :=
  [(okSys "20240101-000001" 2, payload 60), (okSys "20240101-000002" 3, payload 50),
   (okSys "20240101-000003" 4, payload 70)]

/-- The same three writes with both rotations inside one second. -/
def hastyWrites : List (Sys × Bytes) :=
  [(okSys "20240101-000001" 2, payload 60), (okSys "20240101-000002" 3, payload 50),
   (okSys "20240101-000002" 4, payload 70)]

/-- Five complete writes of 100 bytes at increasing times, each of which
rotates, with different stamps. -/
def fiveRotations : List (Sys × Bytes) :=
  [(okSys "20240101-000001" 11, payload 100), (okSys "20240101-000002" 12, payload 100),
   (okSys "20240101-000003" 13, payload 100), (okSys "20240101-000004" 14, payload 100),
   (okSys "20240101-000005" 15, payload 100)]

/-- Five complete writes of 100 bytes at increasing times, each of which
rotates, all inside one second. -/
def sameSecondFive : List (Sys × Bytes) :=
  [(okSys "20240101-000001" 11, payload 100), (okSys "20240101-000001" 12, payload 100),
   (okSys "20240101-000001" 13, payload 100), (okSys "20240101-000001" 14, payload 100),
   (okSys "20240101-000001" 15, payload 100)]

/-- A sink with compression on that holds 60 of 100 bytes and retains one
file. -/
def compressingLogger : Logger := { smallLogger 60 with maxFiles := 1, compress := true }

/-- Five complete writes of 100 bytes, each of which rotates, with different
stamps, while the clock that stamps the files goes backwards. -/
def backwardFive : List (Sys × Bytes) :=
  [(okSys "20240101-000001" 50, payload 100), (okSys "20240101-000002" 40, payload 100),
   (okSys "20240101-000003" 30, payload 100), (okSys "20240101-000004" 20, payload 100),
   (okSys "20240101-000005" 10, payload 100)]

/-! ## Observations on a result -/

/-- Whether an operation that started in the world `w` began a rotation: it
stopped in a panic (which only the retention pass inside rotate can raise), or
the first call it made is the Close of rotate. -/
def startsRotation (w : World) (res : Option World) : Bool :=
  match res with
  | none => true
  | some w2 => (w2.trace.drop w.trace.length).head? == some Call.close

/-- The world of a result of Write. -/
def worldOf (res : Option (Nat × Bool × Logger × World)) : Option World :=
  res.map (fun r => r.2.2.2)

/-! ## The level parser -/

theorem foldRune_code_upper (m : Nat) (hm : 65 ≤ m ∧ m ≤ 90) :
    foldRune (Rune.code m) = Rune.code (m + 32) := by
  simp [foldRune, hm]

/-- A letter of a level name other than I and S is the upper case of exactly
the runes that fold to it. -/
theorem upper_rune_iff (tbl : Nat → Nat) (h : TableOK tbl) (r : Rune) (m : Nat)
    (hm : 65 ≤ m ∧ m ≤ 90) (hI : m ≠ 73) (hS : m ≠ 83) :
    (match r with
      | Rune.code n => Rune.code (unicodeToUpper tbl n)
      | Rune.bad _ => Rune.code 65533) = Rune.code m ↔ foldRune r = foldRune (Rune.code m) := by
  rw [foldRune_code_upper m hm]
  cases r with
  | bad b =>
    simp only [foldRune, Rune.code.injEq]
    constructor
    · intro h1; omega
    · intro h1; cases h1
  | code n =>
    simp only [foldRune, unicodeToUpper, Rune.code.injEq]
    by_cases h128 : 128 ≤ n
    · have ht := h n h128
      have e1 : ¬ (97 ≤ n ∧ n ≤ 122) := by omega
      have e2 : ¬ (n < 128) := by omega
      have e3 : ¬ (65 ≤ n ∧ n ≤ 90) := by omega
      simp only [e1, e2, e3, if_false, Rune.code.injEq]
      constructor
      · intro h1
        exfalso
        by_cases a : tbl n = 73
        · omega
        · by_cases b : tbl n = 83
          · omega
          · exact ht a b (by omega)
      · intro h1; omega
    · split_ifs <;> simp only [Rune.code.injEq] <;> omega

theorem ToUpper_eq_iff (tbl : Nat → Nat) (h : TableOK tbl) (t : List Nat)
    (ht : ∀ m ∈ t, (65 ≤ m ∧ m ≤ 90) ∧ m ≠ 73 ∧ m ≠ 83) (s : GoString) :
    ToUpper tbl s = t.map Rune.code ↔ eqFold s (t.map Rune.code) := by
  unfold eqFold ToUpper
  induction s generalizing t with
  | nil =>
    cases t with
    | nil => simp
    | cons a t => simp
  | cons r s ih =>
    cases t with
    | nil => simp
    | cons a t =>
      have ha := ht a (List.mem_cons_self a t)
      have hr := upper_rune_iff tbl h r a ha.1 ha.2.1 ha.2.2
      have ih2 := ih t (fun m hm => ht m (List.mem_cons_of_mem a hm))
      simp only [List.map_cons, List.cons.injEq]
      rw [hr, ih2]

theorem lit_DEBUG : lit "DEBUG" = [68, 69, 66, 85, 71].map Rune.code := by decide
theorem lit_INFO : lit "INFO" = [73, 78, 70, 79].map Rune.code := by decide
theorem lit_WARN : lit "WARN" = [87, 65, 82, 78].map Rune.code := by decide
theorem lit_ERROR : lit "ERROR" = [69, 82, 82, 79, 82].map Rune.code := by decide
theorem lit_FATAL : lit "FATAL" = [70, 65, 84, 65, 76].map Rune.code := by decide

theorem upper_DEBUG_iff (tbl : Nat → Nat) (h : TableOK tbl) (s : GoString) :
    ToUpper tbl s = lit "DEBUG" ↔ eqFold s (lit "DEBUG") := by
  rw [lit_DEBUG]; exact ToUpper_eq_iff tbl h _ (by decide) s

theorem upper_WARN_iff (tbl : Nat → Nat) (h : TableOK tbl) (s : GoString) :
    ToUpper tbl s = lit "WARN" ↔ eqFold s (lit "WARN") := by
  rw [lit_WARN]; exact ToUpper_eq_iff tbl h _ (by decide) s

theorem upper_ERROR_iff (tbl : Nat → Nat) (h : TableOK tbl) (s : GoString) :
    ToUpper tbl s = lit "ERROR" ↔ eqFold s (lit "ERROR") := by
  rw [lit_ERROR]; exact ToUpper_eq_iff tbl h _ (by decide) s

theorem upper_FATAL_iff (tbl : Nat → Nat) (h : TableOK tbl) (s : GoString) :
    ToUpper tbl s = lit "FATAL" ↔ eqFold s (lit "FATAL") := by
  rw [lit_FATAL]; exact ToUpper_eq_iff tbl h _ (by decide) s

/-- The parser as a function of the case-insensitive comparisons alone. -/
theorem LogLevelFromString_eq (tbl : Nat → Nat) (h : TableOK tbl) (s : GoString) :
    LogLevelFromString tbl s =
      if eqFold s (lit "DEBUG") then DEBUG
      else if eqFold s (lit "WARN") then WARN
      else if eqFold s (lit "ERROR") then ERROR
      else if eqFold s (lit "FATAL") then FATAL
      else INFO := by
  unfold LogLevelFromString
  simp only [← upper_DEBUG_iff tbl h, ← upper_WARN_iff tbl h, ← upper_ERROR_iff tbl h,
    ← upper_FATAL_iff tbl h]
  generalize ToUpper tbl s = u
  split_ifs with h1 h2 h3 h4 h5 <;> first
    | rfl
    | (exfalso; rw [h2] at h3; revert h3; decide)
    | (exfalso; rw [h2] at h4; revert h4; decide)
    | (exfalso; rw [h2] at h5; revert h5; decide)

theorem eqFold_excl (s a b : GoString) (hab : a.map foldRune ≠ b.map foldRune)
    (ha : eqFold s a) : ¬ eqFold s b := by
  unfold eqFold at *
  intro hb
  exact hab (ha.symm.trans hb)

/-- C10. For every string and every case table of the kind the Unicode table
is, LogLevelFromString returns the level whose name equals the string under
case-insensitive comparison, and INFO for every string that equals none of
the five names, the empty string and a name with blanks around it included. -/
theorem LogLevelFromString_spec (tbl : Nat → Nat) (h : TableOK tbl) (s : GoString) :
    (eqFold s (lit "DEBUG") → LogLevelFromString tbl s = DEBUG) ∧
    (eqFold s (lit "INFO") → LogLevelFromString tbl s = INFO) ∧
    (eqFold s (lit "WARN") → LogLevelFromString tbl s = WARN) ∧
    (eqFold s (lit "ERROR") → LogLevelFromString tbl s = ERROR) ∧
    (eqFold s (lit "FATAL") → LogLevelFromString tbl s = FATAL) ∧
    (¬ eqFold s (lit "DEBUG") → ¬ eqFold s (lit "INFO") → ¬ eqFold s (lit "WARN") →
      ¬ eqFold s (lit "ERROR") → ¬ eqFold s (lit "FATAL") → LogLevelFromString tbl s = INFO) ∧
    LogLevelFromString tbl [] = INFO ∧
    LogLevelFromString tbl (lit " debug ") = INFO := by
  rw [LogLevelFromString_eq tbl h s, LogLevelFromString_eq tbl h [],
    LogLevelFromString_eq tbl h (lit " debug ")]
  refine ⟨?_, ?_, ?_, ?_, ?_, ?_, ?_, ?_⟩
  · intro h1; simp [h1]
  · intro h1
    have a := eqFold_excl s (lit "INFO") (lit "DEBUG") (by decide) h1
    have b := eqFold_excl s (lit "INFO") (lit "WARN") (by decide) h1
    have c := eqFold_excl s (lit "INFO") (lit "ERROR") (by decide) h1
    have d := eqFold_excl s (lit "INFO") (lit "FATAL") (by decide) h1
    simp [a, b, c, d]
  · intro h1
    have a := eqFold_excl s (lit "WARN") (lit "DEBUG") (by decide) h1
    simp [a, h1]
  · intro h1
    have a := eqFold_excl s (lit "ERROR") (lit "DEBUG") (by decide) h1
    have b := eqFold_excl s (lit "ERROR") (lit "WARN") (by decide) h1
    simp [a, b, h1]
  · intro h1
    have a := eqFold_excl s (lit "FATAL") (lit "DEBUG") (by decide) h1
    have b := eqFold_excl s (lit "FATAL") (lit "WARN") (by decide) h1
    have c := eqFold_excl s (lit "FATAL") (lit "ERROR") (by decide) h1
    simp [a, b, c, h1]
  · intro a b c d e; simp [a, c, d, e]
  · decide
  · decide

/-- The case table that changes nothing but U+0131 and U+017F. -/
def sampleTable (n : Nat) : Nat := if n = 305 then 73 else if n = 383 then 83 else n

theorem sampleTable_ok : TableOK sampleTable := by
  intro n hn h1 h2
  unfold sampleTable at *
  split_ifs at * <;> omega

/-- C10 at the string "wArN": the parser returns WARN. -/
theorem LogLevelFromString_spec_witness :
    TableOK sampleTable ∧ LogLevelFromString sampleTable (lit "wArN") = WARN :=
  ⟨sampleTable_ok, (LogLevelFromString_spec sampleTable sampleTable_ok (lit "wArN")).2.2.1
    (by decide)⟩

/-! ## Traces -/

theorem log_trace (w : World) (c : Call) : (w.log c).trace = w.trace ++ [c] := rfl

theorem log_dir (w : World) (c : Call) : (w.log c).dir = w.dir := rfl

theorem removeAll_trace (sys : Sys) (ns : List Name) (w : World) :
    w.trace <+: (removeAll sys ns w).trace := by
  induction ns generalizing w with
  | nil => exact List.prefix_refl _
  | cons n ns ih =>
    unfold removeAll
    refine List.IsPrefix.trans ?_ (ih _)
    split_ifs <;> exact List.prefix_append _ _

theorem cleanup_trace (sys : Sys) (l : Logger) (w w2 : World) (e : Bool)
    (h : cleanup sys l w = some (e, w2)) : w.trace <+: w2.trace := by
  unfold cleanup at h
  have h0 : w.trace <+: (w.log Call.readDir).trace := List.prefix_append _ _
  simp only at h
  split at h
  · cases h; exact h0
  · split at h
    · cases h
    · split at h
      · split at h
        · cases h
        · cases h; exact h0.trans (removeAll_trace _ _ _)
      · cases h; exact h0

theorem spawn_trace (l : Logger) (sys : Sys) (w : World) :
    w.trace <+: (if l.compress then w.log (Call.spawn (rotatedName l sys)) else w).trace := by
  split
  · exact List.prefix_append _ _
  · exact List.prefix_refl _

theorem rotate_trace (sys : Sys) (l l2 : Logger) (w w2 : World) (e : Bool)
    (h : rotate sys l w = some (e, l2, w2)) : (w.trace ++ [Call.close]) <+: w2.trace := by
  unfold rotate at h
  simp only at h
  split at h
  · cases h; exact List.prefix_refl _
  · split at h
    · cases h; exact List.prefix_append _ _
    · rename_i dir3 hd
      have h4 := spawn_trace l sys
        { dir := dir3, trace := ((w.log Call.close).log
          (Call.rename l.filename (rotatedName l sys))).trace }
      have h3 : (w.trace ++ [Call.close]) <+: ((w.log Call.close).log
          (Call.rename l.filename (rotatedName l sys))).trace := List.prefix_append _ _
      split at h
      · cases h
      · rename_i w5 hc
        cases h
        exact (h3.trans h4).trans (cleanup_trace _ _ _ _ _ hc)
      · rename_i w5 hc
        have h5 := (h3.trans h4).trans (cleanup_trace _ _ _ _ _ hc)
        split at h
        · cases h
          exact h5.trans (List.prefix_append _ _)
        · cases h
          exact h5.trans (List.prefix_append _ _)

theorem fileWrite_trace (sys : Sys) (l : Logger) (w : World) (p : Bytes) :
    (fileWrite sys l w p).2.2.trace = w.trace ++ [Call.write (fileWrite sys l w p).1] := by
  unfold fileWrite
  split_ifs
  · rfl
  · cases sys.shortWrite <;> rfl

theorem fileWrite_le (sys : Sys) (l : Logger) (w : World) (p : Bytes) :
    (fileWrite sys l w p).1 ≤ p.length := by
  unfold fileWrite
  split_ifs
  · exact Nat.zero_le _
  · cases sys.shortWrite with
    | none => exact Nat.le_refl _
    | some k => simp

theorem fsAppend_names (dir : List DirEntry) (n : Name) (p : Bytes) (t : Nat) :
    (fsAppend dir n p t).map (fun e => e.name) = dir.map (fun e => e.name) := by
  unfold fsAppend
  rw [List.map_map]
  apply List.map_congr_left
  intro e _
  simp only [Function.comp]
  split_ifs <;> rfl

theorem fileWrite_names (sys : Sys) (l : Logger) (w : World) (p : Bytes) :
    (fileWrite sys l w p).2.2.dir.map (fun e => e.name) = w.dir.map (fun e => e.name) := by
  unfold fileWrite
  split_ifs
  · rfl
  · cases sys.shortWrite with
    | none => exact fsAppend_names _ _ _ _
    | some k => exact fsAppend_names _ _ _ _

theorem head_drop_close (t t2 : List Call) (c : Call) (h : (t ++ [c]) <+: t2) :
    (t2.drop t.length).head? = some c := by
  obtain ⟨r, rfl⟩ := h
  simp

theorem head_drop_write (t : List Call) (n : Nat) :
    (((t ++ [Call.write n]).drop t.length).head? == some Call.close) = false := by
  simp

/-! ## The rotation test of Write and Log -/

theorem Write_of_lt (sys : Sys) (p : Bytes) (l : Logger) (w : World)
    (h : l.size + (p.length : Int) < l.maxSize) :
    Write sys p l w = some ((fileWrite sys l w p).1, (fileWrite sys l w p).2.1,
      { l with size := l.size + ((fileWrite sys l w p).1 : Int) },
      (fileWrite sys l w p).2.2) := by
  unfold Write
  rw [if_neg (by omega)]

theorem Write_rotates_iff (sys : Sys) (p : Bytes) (l : Logger) (w : World) :
    startsRotation w (worldOf (Write sys p l w)) = true ↔
      l.size + (p.length : Int) ≥ l.maxSize := by
  by_cases hc : l.size + (p.length : Int) ≥ l.maxSize
  · simp only [hc, iff_true]
    unfold Write
    rw [if_pos hc]
    cases hr : rotate sys l w with
    | none => rfl
    | some r =>
      obtain ⟨e, l1, w1⟩ := r
      have ht := rotate_trace sys l l1 w w1 e hr
      cases e with
      | true =>
        simp only [worldOf, Option.map, startsRotation]
        rw [head_drop_close _ _ _ ht]; simp
      | false =>
        simp only [worldOf, Option.map, startsRotation]
        have h2 : (w.trace ++ [Call.close]) <+: (fileWrite sys l1 w1 p).2.2.trace := by
          rw [fileWrite_trace]; exact ht.trans (List.prefix_append _ _)
        rw [head_drop_close _ _ _ h2]; simp
  · simp only [hc, iff_false]
    rw [Write_of_lt sys p l w (by omega)]
    simp only [worldOf, Option.map, startsRotation, fileWrite_trace]
    rw [head_drop_write]; simp

theorem Log_rotates_iff (sys : Sys) (level : LogLevel) (msg : Bytes) (l : Logger) (w : World)
    (hl : ¬ level < l.level) :
    startsRotation w ((Log sys level msg l w).map (fun r => r.2)) = true ↔
      l.size + ((logLine sys l level msg).length : Int) ≥ l.maxSize := by
  by_cases hc : l.size + ((logLine sys l level msg).length : Int) ≥ l.maxSize
  · simp only [hc, iff_true]
    unfold Log
    rw [if_neg hl]
    simp only
    rw [if_pos hc]
    cases hr : rotate sys l w with
    | none => rfl
    | some r =>
      obtain ⟨e, l1, w1⟩ := r
      have ht := rotate_trace sys l l1 w w1 e hr
      cases e with
      | true =>
        simp only [Option.map, startsRotation]
        have h2 : (w.trace ++ [Call.close]) <+: (w1.log Call.stderr).trace :=
          ht.trans (List.prefix_append _ _)
        rw [head_drop_close _ _ _ h2]; simp
      | false =>
        simp only
        have h2 : (w.trace ++ [Call.close]) <+:
            (fileWrite sys l1 w1 (logLine sys l level msg)).2.2.trace := by
          rw [fileWrite_trace]; exact ht.trans (List.prefix_append _ _)
        rcases hf : fileWrite sys l1 w1 (logLine sys l level msg) with ⟨n, err, w2⟩
        rw [hf] at h2
        cases err with
        | true =>
          simp only [Option.map, startsRotation]
          have h3 : (w.trace ++ [Call.close]) <+: (w2.log Call.stderr).trace :=
            h2.trans (List.prefix_append _ _)
          rw [head_drop_close _ _ _ h3]; simp
        | false =>
          simp only [Option.map, startsRotation]
          rw [head_drop_close _ _ _ h2]; simp
  · simp only [hc, iff_false]
    unfold Log
    rw [if_neg hl]
    simp only
    rw [if_neg hc]
    have ht := fileWrite_trace sys l w (logLine sys l level msg)
    rcases hf : fileWrite sys l w (logLine sys l level msg) with ⟨n, err, w2⟩
    rw [hf] at ht
    simp only at ht
    cases err with
    | true =>
      simp only [Option.map, startsRotation, log_trace, ht]
      simp
    | false =>
      simp only [Option.map, startsRotation, ht]
      simp

/-- A run of writes whose payload lengths, added to the counter, stay below
the threshold makes only append calls and leaves every name in place. -/
theorem runWrites_below (ws : List (Sys × Bytes)) (l : Logger) (w : World)
    (h : l.size + (((ws.map (fun x => x.2.length)).sum : Nat) : Int) < l.maxSize) :
    ∃ l2 w2 calls, runWrites ws l w = some (l2, w2) ∧
      w2.trace = w.trace ++ calls ∧ (∀ c ∈ calls, ∃ n, c = Call.write n) ∧
      w2.dir.map (fun e => e.name) = w.dir.map (fun e => e.name) ∧
      l2.filename = l.filename ∧ l2.fileOpen = l.fileOpen := by
  induction ws generalizing l w with
  | nil => exact ⟨l, w, [], rfl, by simp, by simp, rfl, rfl, rfl⟩
  | cons x ws ih =>
    obtain ⟨sys, p⟩ := x
    simp only [List.map_cons, List.sum_cons, Nat.cast_add] at h
    have hp : (0 : Int) ≤ (((ws.map (fun x => x.2.length)).sum : Nat) : Int) := Int.ofNat_nonneg _
    have hn := fileWrite_le sys l w p
    unfold runWrites
    rw [Write_of_lt sys p l w (by omega)]
    simp only
    obtain ⟨l2, w2, calls, hr, ht, hc, hd, hf, ho⟩ :=
      ih { l with size := l.size + ((fileWrite sys l w p).1 : Int) } (fileWrite sys l w p).2.2
        (by simp only; omega)
    refine ⟨l2, w2, Call.write (fileWrite sys l w p).1 :: calls, hr, ?_, ?_, ?_, hf, ho⟩
    · rw [ht, fileWrite_trace]; simp
    · intro c hcm
      rcases List.mem_cons.mp hcm with rfl | hm
      · exact ⟨_, rfl⟩
      · exact hc c hm
    · rw [hd, fileWrite_names]

/-- C1. Write begins a rotation exactly when size + len(p) >= maxSize, and
Log applies the same test to the line it formats; a run of writes in which the
counter plus the payload lengths so far stays below maxSize returns, makes
no call but appends (no Close, no Rename), and leaves every name of the
directory, the active path among them, as it was. -/
theorem rotation_iff_threshold (sys : Sys) (p : Bytes) (level : LogLevel) (msg : Bytes)
    (ws : List (Sys × Bytes)) (l : Logger) (w : World) :
    (startsRotation w (worldOf (Write sys p l w)) = true ↔
      l.size + (p.length : Int) ≥ l.maxSize) ∧
    (¬ level < l.level →
      (startsRotation w ((Log sys level msg l w).map (fun r => r.2)) = true ↔
        l.size + ((logLine sys l level msg).length : Int) ≥ l.maxSize)) ∧
    ((∀ k, l.size + ((((ws.take k).map (fun x => x.2.length)).sum : Nat) : Int) < l.maxSize) →
      ∃ l2 w2 calls, runWrites ws l w = some (l2, w2) ∧
        w2.trace = w.trace ++ calls ∧ (∀ c ∈ calls, ∃ n, c = Call.write n) ∧
        w2.dir.map (fun e => e.name) = w.dir.map (fun e => e.name) ∧
        l2.filename = l.filename ∧ l2.fileOpen = l.fileOpen) := by
  refine ⟨Write_rotates_iff sys p l w, Log_rotates_iff sys level msg l w, ?_⟩
  intro h
  have := h ws.length
  rw [List.take_length] at this
  exact runWrites_below ws l w this

/-! ## The level filter -/

/-- C6. A call of Log at a level below the threshold returns without a panic
and leaves the sink and the world as they were: the counter, the handle, every
file of the directory, and the trace of calls, to which nothing is added,
whatever the counter and maxSize are.  The levels are ordered
DEBUG < INFO < WARN < ERROR < FATAL. -/
theorem Log_below_threshold (sys : Sys) (level : LogLevel) (msg : Bytes) (l : Logger)
    (w : World) (h : level < l.level) :
    Log sys level msg l w = some (l, w) ∧
      (DEBUG < INFO ∧ INFO < WARN ∧ WARN < ERROR ∧ ERROR < FATAL) := by
  refine ⟨?_, by decide⟩
  unfold Log
  rw [if_pos h]

/-- C1 at two writes of 30 bytes into a sink with a threshold of 100. -/
theorem rotation_iff_threshold_witness :
    ∃ l2 w2 calls,
      runWrites [(okSys "s" 2, payload 30), (okSys "s" 3, payload 30)] (smallLogger 0)
        (freshWorld []) = some (l2, w2) ∧
      w2.trace = (freshWorld []).trace ++ calls ∧ (∀ c ∈ calls, ∃ n, c = Call.write n) ∧
      w2.dir.map (fun e => e.name) = (freshWorld []).dir.map (fun e => e.name) ∧
      l2.filename = (smallLogger 0).filename ∧ l2.fileOpen = (smallLogger 0).fileOpen :=
  (rotation_iff_threshold (okSys "s" 2) [] INFO []
    [(okSys "s" 2, payload 30), (okSys "s" 3, payload 30)] (smallLogger 0) (freshWorld [])).2.2
    (by
      intro k
      rcases k with _ | _ | k <;> simp [smallLogger, payload])

/-- C6 at a DEBUG call on a sink whose threshold is INFO and whose counter is
above maxSize. -/
theorem Log_below_threshold_witness :
    DEBUG < (smallLogger 500).level ∧
      Log (okSys "s" 2) DEBUG (payload 10) (smallLogger 500) (freshWorld (payload 500)) =
        some (smallLogger 500, freshWorld (payload 500)) :=
  ⟨by decide, (Log_below_threshold (okSys "s" 2) DEBUG (payload 10) (smallLogger 500)
    (freshWorld (payload 500)) (by decide)).1⟩

/-! ## The counter -/

/-- C2. An append of Log that gets five bytes into the active file and then
fails leaves the counter at 0 while the file has grown to 5 bytes; the same
append made by Write brings the counter to 5. -/
theorem Log_short_write_miscounts :
    (Log shortSys INFO (payload 10) (smallLogger 0) (freshWorld [])).map
        (counterAndLength "app.log".toList) = some (0, some 5) ∧
    (Write shortSys (payload 46) (smallLogger 0) (freshWorld [])).map
        (fun r => counterAndLength "app.log".toList r.2.2) = some (5, some 5) := by
  decide

/-! ## A listing that fails -/

/-- C7, what the code does. When the Close and the Rename of a rotation have
succeeded and the listing of the directory fails, rotate returns that error
before it opens a file: Write returns count 0 and the error, appends nothing,
leaves the active path renamed away and the handle closed, and does not reset
the counter. -/
theorem Write_listing_failure (sys : Sys) (p : Bytes) (l : Logger) (w : World)
    (dir3 : List DirEntry) (hopen : l.fileOpen = true)
    (hc : l.size + (p.length : Int) ≥ l.maxSize) (hclose : sys.closeErr = false)
    (hren : sys.renameErr = false)
    (hfs : fsRename w.dir l.filename (rotatedName l sys) = some dir3)
    (hrd : sys.readDirErr = true) :
    Write sys p l w = some (0, true, { l with fileOpen := false },
      { dir := dir3,
        trace := w.trace ++ [Call.close, Call.rename l.filename (rotatedName l sys)] ++
          (if l.compress then [Call.spawn (rotatedName l sys)] else []) ++ [Call.readDir] }) := by
  unfold Write
  rw [if_pos hc]
  unfold rotate cleanup
  simp only [hopen, hclose, hren, hrd, World.log, hfs]
  cases l.compress <;> simp

/-- C7 at a write of 50 bytes on a sink that holds 60 of 100. -/
theorem Write_listing_failure_witness :
    Write listFailSys (payload 50) (smallLogger 60) (freshWorld (payload 60)) =
      some (0, true, { smallLogger 60 with fileOpen := false },
        { dir := [{ name := "app.log.20240101-000001".toList, isDir := false, modTime := 1,
                    data := payload 60 }],
          trace := [Call.close,
            Call.rename "app.log".toList "app.log.20240101-000001".toList, Call.readDir] }) :=
  Write_listing_failure listFailSys (payload 50) (smallLogger 60) (freshWorld (payload 60))
    [{ name := "app.log.20240101-000001".toList, isDir := false, modTime := 1,
       data := payload 60 }]
    rfl (by decide) rfl rfl (by decide) rfl

/-- C7, counterexample. With the listing failing, Write returns
the error and count 0, no file is at the original path, and the counter is
still 60. -/
theorem Write_listing_failure_not_success :
    (Write listFailSys (payload 50) (smallLogger 60) (freshWorld (payload 60))).map
      (fun r => (r.1, r.2.1, r.2.2.1.fileOpen, r.2.2.1.size,
        lookup r.2.2.2.dir "app.log".toList)) = some (0, true, false, 60, none) := by
  decide

/-! ## A file that vanishes under the retention pass -/

theorem payload_length (n : Nat) : (payload n).length = n := List.length_replicate n _


/-- A rotation whose sort meets a name without a FileInfo ends Write in a
panic. -/
theorem Write_panics (sys : Sys) (p : Bytes) (l : Logger) (w : World)
    (dir3 : List DirEntry) (hopen : l.fileOpen = true)
    (hc : l.size + (p.length : Int) ≥ l.maxSize) (hclose : sys.closeErr = false)
    (hren : sys.renameErr = false)
    (hfs : fsRename w.dir l.filename (rotatedName l sys) = some dir3)
    (hrd : sys.readDirErr = false)
    (hsort : sortSlice (lessByModTime sys dir3) (logFiles l dir3) = none) :
    Write sys p l w = none := by
  have hl : logFiles { l with fileOpen := false } dir3 = logFiles l dir3 := rfl
  have hcl : ∀ w4 : World, w4.dir = dir3 →
      cleanup sys { l with fileOpen := false } w4 = none := by
    intro w4 hd
    unfold cleanup
    simp only [hrd, World.log, hd, hl, hsort]
    simp
  unfold Write
  rw [if_pos hc]
  unfold rotate
  simp only [hopen, hclose, hren, World.log, hfs, Bool.not_true, Bool.or_self,
    Bool.false_eq_true, if_false]
  rw [hcl _ (by split <;> rfl)]

/-- C8. A sink built with a threshold of one mebibyte receives a write of one
mebibyte while the directory lists a rotated file for which os.Stat returns no
FileInfo: the comparison closure of cleanup dereferences the missing result
and Write ends in a panic instead of returning. -/
theorem Write_panic_on_vanished_file :
    Write racedSys (payload 1048576) mebiLogger racedWorld = none :=
  Write_panics racedSys (payload 1048576) mebiLogger racedWorld
    [{ name := "app.log.20240101-000001".toList, isDir := false, modTime := 5, data := [] },
     { name := "app.log.20240101-000000".toList, isDir := false, modTime := 3,
       data := payload 8 },
     { name := "app.log.20240101-000000.gz".toList, isDir := false, modTime := 4,
       data := payload 2 }]
    rfl (by rw [payload_length]; decide) rfl rfl (by decide) rfl (by decide)

/-! ## The compression task -/

/-- C9. When the file is created, the source opened and the copy made without
an error, and the deferred Close of the gzip stream then fails with nothing
written out, compressLogFile still returns nil and the task removes the
uncompressed file: the directory is left with an empty compressed file and
without the rotated one. -/
theorem compressTask_removes_after_failed_close (gz : Bytes → Bytes) :
    (compressLogFile gzCloseFails gz "app.log.20240101-000000".toList
        { dir := [{ name := "app.log.20240101-000000".toList, isDir := false, modTime := 3,
                    data := payload 8 }], trace := [] }).1 = false ∧
    (compressTask gzCloseFails gz "app.log.20240101-000000".toList
        { dir := [{ name := "app.log.20240101-000000".toList, isDir := false, modTime := 3,
                    data := payload 8 }], trace := [] }).dir =
      [{ name := "app.log.20240101-000000.gz".toList, isDir := false, modTime := 9,
         data := [] }] := by
  constructor <;> rfl

/-! ## The insertion sort -/

theorem insertBack_total {α : Type} (less : α → α → Option Bool) (key : α → Nat)
    (S : α → Prop) (h : ∀ a b, S a → S b → less a b = some (decide (key b < key a)))
    (x : α) (hx : S x) (acc : List α) (hacc : ∀ y ∈ acc, S y) :
    insertBack less x acc = some (insertDesc key x acc) := by
  induction acc with
  | nil => rfl
  | cons y ys ih =>
    have hy := hacc y (List.mem_cons_self y ys)
    have ih2 := ih (fun z hz => hacc z (List.mem_cons_of_mem y hz))
    unfold insertBack insertDesc
    rw [h x y hx hy]
    by_cases hk : key y < key x
    · simp [hk, ih2]
    · simp [hk]

theorem insertDesc_perm {α : Type} (key : α → Nat) (x : α) (acc : List α) :
    (insertDesc key x acc).Perm (x :: acc) := by
  induction acc with
  | nil => exact List.Perm.refl _
  | cons y ys ih =>
    unfold insertDesc
    split
    · exact (List.Perm.cons y ih).trans (List.Perm.swap x y ys)
    · exact List.Perm.refl _

theorem insertDesc_sorted {α : Type} (key : α → Nat) (x : α) (acc : List α)
    (h : acc.Pairwise (fun a b => key a ≤ key b)) :
    (insertDesc key x acc).Pairwise (fun a b => key a ≤ key b) := by
  induction acc with
  | nil => simp [insertDesc]
  | cons y ys ih =>
    rw [List.pairwise_cons] at h
    unfold insertDesc
    split
    · rename_i hlt
      rw [List.pairwise_cons]
      refine ⟨?_, ih h.2⟩
      intro z hz
      rcases List.mem_cons.mp ((insertDesc_perm key x ys).mem_iff.mp hz) with rfl | hz2
      · omega
      · exact h.1 z hz2
    · rename_i hge
      rw [List.pairwise_cons, List.pairwise_cons]
      refine ⟨?_, h.1, h.2⟩
      intro z hz
      rcases List.mem_cons.mp hz with rfl | hz2
      · omega
      · have := h.1 z hz2; omega

theorem sortLoop_total {α : Type} (less : α → α → Option Bool) (key : α → Nat)
    (S : α → Prop) (h : ∀ a b, S a → S b → less a b = some (decide (key b < key a)))
    (xs : List α) (hxs : ∀ y ∈ xs, S y) (acc : List α) (hacc : ∀ y ∈ acc, S y) :
    sortLoop less acc xs = some (sortDescLoop key acc xs) := by
  induction xs generalizing acc with
  | nil => rfl
  | cons x xs ih =>
    unfold sortLoop sortDescLoop
    rw [insertBack_total less key S h x (hxs x (List.mem_cons_self x xs)) acc hacc]
    simp only
    apply ih (fun z hz => hxs z (List.mem_cons_of_mem x hz))
    intro z hz
    rcases List.mem_cons.mp ((insertDesc_perm key x acc).mem_iff.mp hz) with rfl | hz2
    · exact hxs z (List.mem_cons_self z xs)
    · exact hacc z hz2

theorem sortDescLoop_perm {α : Type} (key : α → Nat) (xs acc : List α) :
    (sortDescLoop key acc xs).Perm (acc ++ xs) := by
  induction xs generalizing acc with
  | nil => simp [sortDescLoop]
  | cons x xs ih =>
    unfold sortDescLoop
    refine (ih _).trans ?_
    refine ((insertDesc_perm key x acc).append_right xs).trans ?_
    exact List.perm_middle.symm

theorem sortDescLoop_sorted {α : Type} (key : α → Nat) (xs acc : List α)
    (h : acc.Pairwise (fun a b => key a ≤ key b)) :
    (sortDescLoop key acc xs).Pairwise (fun a b => key b ≤ key a) := by
  induction xs generalizing acc with
  | nil =>
    unfold sortDescLoop
    rw [List.pairwise_reverse]
    exact h
  | cons x xs ih =>
    unfold sortDescLoop
    exact ih _ (insertDesc_sorted key x acc h)

/-! ## The retention pass when every call succeeds -/

theorem lookup_of_mem (dir : List DirEntry) (hn : (dir.map (fun e => e.name)).Nodup)
    (e : DirEntry) (he : e ∈ dir) : lookup dir e.name = some e := by
  induction dir with
  | nil => cases he
  | cons d ds ih =>
    rw [List.map_cons, List.nodup_cons] at hn
    unfold lookup
    rw [List.find?_cons]
    rcases List.mem_cons.mp he with rfl | hm
    · simp
    · have hne : d.name ≠ e.name := by
        intro heq
        exact hn.1 (heq ▸ List.mem_map_of_mem (fun e => e.name) hm)
      have : (d.name == e.name) = false := by simpa using hne
      rw [this]
      exact ih hn.2 hm

theorem lookup_isSome_of_mem (dir : List DirEntry) (e : DirEntry) (he : e ∈ dir) :
    (lookup dir e.name).isSome = true := by
  unfold lookup
  rw [List.find?_isSome]
  exact ⟨e, he, by simp⟩

theorem modKey_of_mem (dir : List DirEntry) (hn : (dir.map (fun e => e.name)).Nodup)
    (e : DirEntry) (he : e ∈ dir) : modKey dir e.name = e.modTime := by
  unfold modKey
  rw [lookup_of_mem dir hn e he]
  rfl

theorem lessByModTime_total (sys : Sys) (dir : List DirEntry)
    (hstat : ∀ n, sys.statErr n = false) (a b : Name)
    (ha : (lookup dir a).isSome = true) (hb : (lookup dir b).isSome = true) :
    lessByModTime sys dir a b = some (decide (modKey dir b < modKey dir a)) := by
  unfold lessByModTime statModTime modKey
  rw [hstat a, hstat b]
  obtain ⟨ea, hea⟩ := Option.isSome_iff_exists.mp ha
  obtain ⟨eb, heb⟩ := Option.isSome_iff_exists.mp hb
  simp [hea, heb]

theorem logFiles_isSome (l : Logger) (dir : List DirEntry) (n : Name)
    (h : n ∈ logFiles l dir) : (lookup dir n).isSome = true := by
  unfold logFiles at h
  obtain ⟨e, he, rfl⟩ := List.mem_map.mp h
  exact lookup_isSome_of_mem dir e (List.mem_of_mem_filter he)

theorem sortSlice_ok (sys : Sys) (l : Logger) (dir : List DirEntry)
    (hstat : ∀ n, sys.statErr n = false) :
    sortSlice (lessByModTime sys dir) (logFiles l dir) =
      some (sortDescLoop (modKey dir) [] (logFiles l dir)) := by
  unfold sortSlice
  exact sortLoop_total (lessByModTime sys dir) (modKey dir)
    (fun n => (lookup dir n).isSome = true)
    (fun a b ha hb => lessByModTime_total sys dir hstat a b ha hb)
    (logFiles l dir) (fun n hn => logFiles_isSome l dir n hn) [] (by simp)

theorem sorted_length (l : Logger) (dir : List DirEntry) :
    (sortDescLoop (modKey dir) [] (logFiles l dir)).length = (logFiles l dir).length := by
  have := (sortDescLoop_perm (modKey dir) (logFiles l dir) []).length_eq
  simpa using this

theorem removeAll_dir (sys : Sys) (hrem : ∀ n, sys.removeErr n = false) (ns : List Name)
    (w : World) :
    (removeAll sys ns w).dir = w.dir.filter (fun e => decide (e.name ∉ ns)) := by
  induction ns generalizing w with
  | nil => simp [removeAll]
  | cons n ns ih =>
    unfold removeAll
    simp only [hrem n, Bool.false_eq_true, if_false]
    rw [ih]
    simp only [fsRemove, World.log, List.filter_filter]
    apply List.filter_congr
    intro e _
    by_cases h1 : e.name = n <;> by_cases h2 : e.name ∈ ns <;> simp [h1, h2]

/-- The retention pass when the listing and every os.Stat succeed. -/
theorem cleanup_ok (sys : Sys) (l : Logger) (w : World) (hrd : sys.readDirErr = false)
    (hstat : ∀ n, sys.statErr n = false) (hm : 0 ≤ l.maxFiles) :
    cleanup sys l w = some (false,
      if ((logFiles l w.dir).length : Int) > l.maxFiles then
        removeAll sys ((sortDescLoop (modKey w.dir) [] (logFiles l w.dir)).drop
          l.maxFiles.toNat) (w.log Call.readDir)
      else w.log Call.readDir) := by
  unfold cleanup
  simp only [hrd, Bool.false_eq_true, if_false, log_dir]
  rw [sortSlice_ok sys l w.dir hstat]
  simp only [sorted_length]
  have hm2 : ¬ l.maxFiles < 0 := by omega
  split_ifs <;> rfl

/-! ## Which entries the retention pass keeps -/

/-- In a list in strictly descending order of the key, what is left after
the first m elements are the elements with at least m larger keys. -/
theorem drop_eq_filter_rank {α : Type} (key : α → Nat) (s : List α)
    (hs : s.Pairwise (fun a b => key b < key a)) (m : Nat) :
    s.drop m =
      s.filter (fun x => decide (m ≤ (s.filter (fun y => decide (key x < key y))).length)) := by
  induction s generalizing m with
  | nil => simp
  | cons a t ih =>
    rw [List.pairwise_cons] at hs
    cases m with
    | zero => simp
    | succ m =>
      rw [List.drop_succ_cons, ih hs.2 m]
      have ha : (List.filter (fun y => decide (key a < key y)) (a :: t)) = [] := by
        rw [List.filter_eq_nil_iff]
        intro y hy
        rcases List.mem_cons.mp hy with rfl | hy2
        · simp
        · have := hs.1 y hy2
          simp only [decide_eq_true_eq]; omega
      rw [List.filter_cons, ha]
      simp only [List.length_nil, Nat.le_zero_eq, Nat.add_one_ne_zero, decide_False,
        Bool.false_eq_true, if_false]
      apply List.filter_congr
      intro x hx
      have hxa := hs.1 x hx
      rw [List.filter_cons]
      simp only [hxa, decide_True, if_true, List.length_cons, Nat.add_le_add_iff_right]

theorem mem_logFiles_iff (l : Logger) (dir : List DirEntry)
    (hn : (dir.map (fun e => e.name)).Nodup) (e : DirEntry) (he : e ∈ dir) :
    e.name ∈ logFiles l dir ↔ isRotated l e = true := by
  unfold logFiles
  constructor
  · intro h
    obtain ⟨f, hf, hfe⟩ := List.mem_map.mp h
    have hfd := List.mem_of_mem_filter hf
    have : f = e := by
      have h1 := lookup_of_mem dir hn f hfd
      have h2 := lookup_of_mem dir hn e he
      rw [hfe] at h1
      rw [h1] at h2
      exact Option.some.inj h2
    subst this
    exact (List.mem_filter.mp hf).2
  · intro h
    exact List.mem_map_of_mem (fun e => e.name) (List.mem_filter.mpr ⟨he, h⟩)

theorem rank_names_eq (l : Logger) (dir : List DirEntry)
    (hn : (dir.map (fun e => e.name)).Nodup) (e : DirEntry) (he : e ∈ dir) :
    ((logFiles l dir).filter
        (fun n => decide (modKey dir e.name < modKey dir n))).length = newerCount l dir e := by
  unfold logFiles newerCount rotated
  rw [List.filter_map, List.length_map]
  congr 1
  apply List.filter_congr
  intro f hf
  simp only [Function.comp]
  rw [modKey_of_mem dir hn e he, modKey_of_mem dir hn f (List.mem_of_mem_filter hf)]

theorem logFiles_keys (l : Logger) (dir : List DirEntry)
    (hn : (dir.map (fun e => e.name)).Nodup) :
    (logFiles l dir).map (modKey dir) = (rotated l dir).map (fun e => e.modTime) := by
  unfold logFiles rotated
  rw [List.map_map]
  apply List.map_congr_left
  intro f hf
  exact modKey_of_mem dir hn f (List.mem_of_mem_filter hf)

theorem sorted_strict (l : Logger) (dir : List DirEntry)
    (hn : (dir.map (fun e => e.name)).Nodup)
    (ht : ((rotated l dir).map (fun e => e.modTime)).Nodup) :
    (sortDescLoop (modKey dir) [] (logFiles l dir)).Pairwise
      (fun a b => modKey dir b < modKey dir a) := by
  have hp := sortDescLoop_perm (modKey dir) (logFiles l dir) []
  have hs := sortDescLoop_sorted (modKey dir) (logFiles l dir) [] List.Pairwise.nil
  have hk : ((sortDescLoop (modKey dir) [] (logFiles l dir)).map (modKey dir)).Nodup := by
    have := (hp.map (modKey dir)).nodup_iff
    rw [this]
    simpa [logFiles_keys l dir hn] using ht
  have hne := List.pairwise_map.mp hk
  refine (hs.and hne).imp ?_
  intro a b hab
  have h1 := hab.1
  have h2 := hab.2
  omega

theorem take_count_rank {α : Type} (key : α → Nat) (s : List α)
    (hs : s.Pairwise (fun a b => key b < key a)) (m : Nat) :
    (s.filter (fun x =>
      decide ((s.filter (fun y => decide (key x < key y))).length < m))).length =
      min s.length m := by
  have h := congrArg List.length (drop_eq_filter_rank key s hs m)
  rw [List.length_drop] at h
  have hc := List.length_eq_countP_add_countP
    (fun x => decide (m ≤ (s.filter (fun y => decide (key x < key y))).length)) s
  rw [List.countP_eq_length_filter, List.countP_eq_length_filter] at hc
  have he : s.filter (fun x =>
      decide ((s.filter (fun y => decide (key x < key y))).length < m)) =
      s.filter (fun a => decide ¬ (decide
        (m ≤ (s.filter (fun y => decide (key a < key y))).length) = true)) := by
    apply List.filter_congr
    intro x _
    simp
  rw [he]
  omega

/-- The directory after the retention pass, when names are unique and the
selected entries have pairwise distinct modification times. -/
theorem cleanup_dir (sys : Sys) (l : Logger) (w : World) (hrd : sys.readDirErr = false)
    (hstat : ∀ n, sys.statErr n = false) (hrem : ∀ n, sys.removeErr n = false)
    (hm : 0 ≤ l.maxFiles) (hn : (w.dir.map (fun e => e.name)).Nodup)
    (ht : ((rotated l w.dir).map (fun e => e.modTime)).Nodup) :
    ∃ w2, cleanup sys l w = some (false, w2) ∧
      w2.dir = w.dir.filter (fun e =>
        !isRotated l e || decide (newerCount l w.dir e < l.maxFiles.toNat)) := by
  rw [cleanup_ok sys l w hrd hstat hm]
  refine ⟨_, rfl, ?_⟩
  have hlen : (logFiles l w.dir).length = (rotated l w.dir).length := by
    unfold logFiles rotated; rw [List.length_map]
  split_ifs with hk
  · rw [removeAll_dir sys hrem, log_dir]
    apply List.filter_congr
    intro e he
    rw [drop_eq_filter_rank (modKey w.dir) _ (sorted_strict l w.dir hn ht)]
    have hp := sortDescLoop_perm (modKey w.dir) (logFiles l w.dir) []
    rw [List.nil_append] at hp
    have hr : ((sortDescLoop (modKey w.dir) [] (logFiles l w.dir)).filter
        (fun y => decide (modKey w.dir e.name < modKey w.dir y))).length =
        newerCount l w.dir e := by
      rw [(hp.filter _).length_eq]
      exact rank_names_eq l w.dir hn e he
    have hmem := mem_logFiles_iff l w.dir hn e he
    by_cases hrot : isRotated l e = true
    · have hin : e.name ∈ sortDescLoop (modKey w.dir) [] (logFiles l w.dir) :=
        hp.mem_iff.mpr (hmem.mpr hrot)
      simp only [List.mem_filter, hin, true_and, hr, hrot, Bool.not_true, Bool.false_or,
        decide_eq_true_eq]
      by_cases hc : l.maxFiles.toNat ≤ newerCount l w.dir e <;> simp [hc] <;> omega
    · have hnin : e.name ∉ sortDescLoop (modKey w.dir) [] (logFiles l w.dir) := by
        intro hin
        exact hrot (hmem.mp (hp.mem_iff.mp hin))
      simp [List.mem_filter, hnin, hrot]
  · rw [log_dir]
    symm
    rw [List.filter_eq_self]
    intro e he
    by_cases hrot : isRotated l e = true
    · have hmemr : e ∈ rotated l w.dir := List.mem_filter.mpr ⟨he, hrot⟩
      have hlt : newerCount l w.dir e < (rotated l w.dir).length := by
        unfold newerCount
        rw [List.length_filter_lt_length_iff_exists]
        exact ⟨e, hmemr, by simp⟩
      have : newerCount l w.dir e < l.maxFiles.toNat := by omega
      simp [hrot, this]
    · simp [hrot]

theorem active_not_rotated (l : Logger) (e : DirEntry) (h : e.name = l.filename) :
    isRotated l e = false := by
  unfold isRotated startsWith
  have : (l.filename ++ ['.']).isPrefixOf e.name = false := by
    rw [Bool.eq_false_iff]
    intro hp
    have := (List.isPrefixOf_iff_prefix.mp hp).length_le
    rw [h] at this
    simp at this
  rw [this]; simp

theorem kept_count (l : Logger) (dir : List DirEntry)
    (hn : (dir.map (fun e => e.name)).Nodup)
    (ht : ((rotated l dir).map (fun e => e.modTime)).Nodup) (m : Nat) :
    ((rotated l dir).filter (fun e => decide (newerCount l dir e < m))).length =
      min (rotated l dir).length m := by
  have hp := sortDescLoop_perm (modKey dir) (logFiles l dir) []
  rw [List.nil_append] at hp
  have h1 := take_count_rank (modKey dir) _ (sorted_strict l dir hn ht) m
  rw [hp.length_eq] at h1
  have hlen : (logFiles l dir).length = (rotated l dir).length := by
    unfold logFiles rotated; rw [List.length_map]
  rw [hlen] at h1
  rw [← h1]
  have h2 : (sortDescLoop (modKey dir) [] (logFiles l dir)).filter (fun x =>
      decide (((sortDescLoop (modKey dir) [] (logFiles l dir)).filter
        (fun y => decide (modKey dir x < modKey dir y))).length < m)) =
      (sortDescLoop (modKey dir) [] (logFiles l dir)).filter (fun x =>
      decide (((logFiles l dir).filter
        (fun y => decide (modKey dir x < modKey dir y))).length < m)) := by
    apply List.filter_congr
    intro x _
    rw [(hp.filter _).length_eq]
  rw [h2, (hp.filter _).length_eq]
  have h3 : (logFiles l dir).filter (fun x =>
      decide (((logFiles l dir).filter
        (fun y => decide (modKey dir x < modKey dir y))).length < m)) =
      ((rotated l dir).filter (fun e => decide (newerCount l dir e < m))).map
        (fun e => e.name) := by
    show ((rotated l dir).map (fun e => e.name)).filter _ = _
    rw [List.filter_map]
    congr 1
    apply List.filter_congr
    intro e he
    simp only [Function.comp]
    rw [rank_names_eq l dir hn e (List.mem_of_mem_filter he)]
  rw [h3, List.length_map]

/-- One retention pass. When the listing, every os.Stat and every os.Remove succeed, the
names of the directory are unique and the selected entries (not a directory,
name beginning with the base name of the active file and a dot) have pairwise
distinct modification times, cleanup returns without error and an entry is
left exactly when it was there and, if selected, fewer than maxFiles selected
entries are newer than it.  So min(k, maxFiles) of the k selected entries are
left, the most recently modified ones; a directory, an entry without the
beginning, and the active path are left in place; and with maxFiles = 3
and more than three selected entries exactly three are left. -/
theorem cleanup_pass_keeps_newest (sys : Sys) (l : Logger) (w : World)
    (hrd : sys.readDirErr = false) (hstat : ∀ n, sys.statErr n = false)
    (hrem : ∀ n, sys.removeErr n = false) (hm : 0 ≤ l.maxFiles)
    (hn : (w.dir.map (fun e => e.name)).Nodup)
    (ht : ((rotated l w.dir).map (fun e => e.modTime)).Nodup) :
    ∃ w2, cleanup sys l w = some (false, w2) ∧
      (∀ e, e ∈ w2.dir ↔
        e ∈ w.dir ∧ (isRotated l e = true → newerCount l w.dir e < l.maxFiles.toNat)) ∧
      (rotated l w2.dir).length = min (rotated l w.dir).length l.maxFiles.toNat ∧
      (∀ e ∈ w.dir, e.isDir = true ∨ startsWith e.name (l.filename ++ ['.']) = false ∨
        e.name = l.filename → e ∈ w2.dir) ∧
      (l.maxFiles = 3 → 3 < (rotated l w.dir).length → (rotated l w2.dir).length = 3) := by
  obtain ⟨w2, hw, hd⟩ := cleanup_dir sys l w hrd hstat hrem hm hn ht
  have hmem : ∀ e, e ∈ w2.dir ↔
      e ∈ w.dir ∧ (isRotated l e = true → newerCount l w.dir e < l.maxFiles.toNat) := by
    intro e
    rw [hd, List.mem_filter]
    by_cases hr : isRotated l e = true <;> simp [hr]
  have hcount : (rotated l w2.dir).length = min (rotated l w.dir).length l.maxFiles.toNat := by
    rw [← kept_count l w.dir hn ht l.maxFiles.toNat]
    congr 1
    unfold rotated
    rw [hd, List.filter_filter, List.filter_filter]
    apply List.filter_congr
    intro e _
    by_cases hr : isRotated l e = true <;> simp [hr]
  refine ⟨w2, hw, hmem, hcount, ?_, ?_⟩
  · intro e he hcase
    rw [hmem]
    refine ⟨he, ?_⟩
    intro hr
    exfalso
    rcases hcase with h1 | h1 | h1
    · simp [isRotated, h1] at hr
    · simp [isRotated, h1] at hr
    · rw [active_not_rotated l e h1] at hr; cases hr
  · intro h3 hk
    rw [hcount, h3]
    have h4 : (3 : Int).toNat = 3 := rfl
    rw [h4]
    omega

/-! ## Rename on a directory with unique names -/

theorem lookup_mem (dir : List DirEntry) (n : Name) (e : DirEntry)
    (h : lookup dir n = some e) : e ∈ dir ∧ e.name = n := by
  unfold lookup at h
  refine ⟨List.mem_of_find?_eq_some h, ?_⟩
  have := List.find?_some h
  simpa using this

theorem lookup_none (dir : List DirEntry) (n : Name) (h : lookup dir n = none) :
    ∀ e ∈ dir, e.name ≠ n := by
  unfold lookup at h
  rw [List.find?_eq_none] at h
  intro e he
  have := h e he
  simpa using this

theorem lookup_none_of (dir : List DirEntry) (n : Name) (h : ∀ e ∈ dir, e.name ≠ n) :
    lookup dir n = none := by
  unfold lookup
  rw [List.find?_eq_none]
  intro e he
  simpa using h e he

theorem rotatedName_ne (l : Logger) (sys : Sys) : l.filename ≠ rotatedName l sys := by
  intro h
  have := congrArg List.length h
  unfold rotatedName at this
  simp at this

theorem fsRename_ok (dir : List DirEntry) (old new : Name) (a : DirEntry)
    (hn : (dir.map (fun e => e.name)).Nodup) (ha : a ∈ dir) (han : a.name = old)
    (hadir : a.isDir = false) (hne : old ≠ new)
    (htgt : ∀ t ∈ dir, t.name = new → t.isDir = false) :
    fsRename dir old new =
      some ((dir.filter (fun f => f.name != new)).map (renameEntry old new)) := by
  unfold fsRename
  have h1 := lookup_of_mem dir hn a ha
  rw [han] at h1
  rw [h1]
  simp only [hne, if_false]
  cases h2 : lookup dir new with
  | some t =>
    obtain ⟨ht, htn⟩ := lookup_mem dir new t h2
    simp [htgt t ht htn, hadir]
  | none =>
    have := lookup_none dir new h2
    have hf : dir.filter (fun f => f.name != new) = dir := by
      rw [List.filter_eq_self]
      intro e he
      simpa using this e he
    simp only [hf]

theorem mem_renamed (dir : List DirEntry) (old new : Name) (a : DirEntry)
    (hn : (dir.map (fun e => e.name)).Nodup) (ha : a ∈ dir) (han : a.name = old)
    (hne : old ≠ new) (f : DirEntry) :
    f ∈ (dir.filter (fun f => f.name != new)).map (renameEntry old new) ↔
      f = { a with name := new } ∨ (f ∈ dir ∧ f.name ≠ old ∧ f.name ≠ new) := by
  rw [List.mem_map]
  constructor
  · rintro ⟨g, hg, rfl⟩
    obtain ⟨hgd, hgn⟩ := List.mem_filter.mp hg
    have hgn2 : g.name ≠ new := by simpa using hgn
    unfold renameEntry
    by_cases ho : g.name = old
    · left
      have : g = a := by
        have h1 := lookup_of_mem dir hn g hgd
        have h2 := lookup_of_mem dir hn a ha
        rw [ho] at h1; rw [han] at h2
        rw [h1] at h2
        exact Option.some.inj h2
      subst this
      simp [ho]
    · right
      have : (g.name == old) = false := by simpa using ho
      simp only [this, Bool.false_eq_true, if_false]
      exact ⟨hgd, ho, hgn2⟩
  · rintro (rfl | ⟨hfd, hfo, hfn⟩)
    · refine ⟨a, List.mem_filter.mpr ⟨ha, ?_⟩, ?_⟩
      · rw [han]; simpa using hne
      · unfold renameEntry; simp [han]
    · refine ⟨f, List.mem_filter.mpr ⟨hfd, by simpa using hfn⟩, ?_⟩
      unfold renameEntry
      have : (f.name == old) = false := by simpa using hfo
      simp [this]

theorem renamed_nodup (dir : List DirEntry) (old new : Name)
    (hn : (dir.map (fun e => e.name)).Nodup) :
    (((dir.filter (fun f => f.name != new)).map (renameEntry old new)).map
      (fun e => e.name)).Nodup := by
  rw [List.map_map]
  have hs : ((dir.filter (fun f => f.name != new)).map (fun e => e.name)).Nodup :=
    (List.filter_sublist dir).map (fun e => e.name) |>.nodup hn
  have hc : (dir.filter (fun f => f.name != new)).map ((fun e => e.name) ∘ renameEntry old new) =
      ((dir.filter (fun f => f.name != new)).map (fun e => e.name)).map
        (fun n => if n == old then new else n) := by
    rw [List.map_map]
    apply List.map_congr_left
    intro f _
    simp only [Function.comp, renameEntry]
    by_cases h : f.name == old <;> simp [h]
  rw [hc]
  apply List.Nodup.map_on _ hs
  intro x hx y hy hxy
  have hxn : x ≠ new := by
    obtain ⟨f, hf, rfl⟩ := List.mem_map.mp hx
    simpa using (List.mem_filter.mp hf).2
  have hyn : y ≠ new := by
    obtain ⟨f, hf, rfl⟩ := List.mem_map.mp hy
    simpa using (List.mem_filter.mp hf).2
  by_cases h1 : x = old <;> by_cases h2 : y = old
  · rw [h1, h2]
  · simp [h1, h2] at hxy; exact absurd hxy.symm hyn
  · simp [h1, h2] at hxy; exact absurd hxy hxn
  · simpa [h1, h2] using hxy

/-! ## A rotation in which every call succeeds -/

theorem cleanup_ok2 (sys : Sys) (l : Logger) (w : World) (hrd : sys.readDirErr = false)
    (hstat : ∀ n, sys.statErr n = false) (hm : 0 ≤ l.maxFiles) :
    cleanup sys l w = some (false, afterCleanup sys l w) :=
  cleanup_ok sys l w hrd hstat hm

theorem rotate_ok (sys : Sys) (l : Logger) (w : World) (dir3 : List DirEntry)
    (hopen : l.fileOpen = true) (hclose : sys.closeErr = false)
    (hren : sys.renameErr = false)
    (hfs : fsRename w.dir l.filename (rotatedName l sys) = some dir3)
    (hrd : sys.readDirErr = false) (hstat : ∀ n, sys.statErr n = false)
    (hm : 0 ≤ l.maxFiles) (hop : sys.openErr = false)
    (hfresh : ∀ e ∈ (afterCleanup sys l (afterRename sys l w dir3)).dir,
      e.name ≠ l.filename) :
    rotate sys l w = some (false, { l with fileOpen := true, size := 0 },
      { dir := (afterCleanup sys l (afterRename sys l w dir3)).dir ++
          [freshEntry l.filename sys.time],
        trace := (afterCleanup sys l (afterRename sys l w dir3)).trace ++
          [Call.openFile l.filename] }) := by
  have hc := cleanup_ok2 sys { l with fileOpen := false } (afterRename sys l w dir3) hrd hstat hm
  have hc2 : afterCleanup sys { l with fileOpen := false } (afterRename sys l w dir3) =
      afterCleanup sys l (afterRename sys l w dir3) := rfl
  rw [hc2] at hc
  have hl := lookup_none_of _ _ hfresh
  unfold rotate
  simp only [hopen, hclose, hren, log_dir, hfs, Bool.not_true, Bool.or_self,
    Bool.false_eq_true, if_false]
  have hw : (if l.compress = true then
      (({ dir := dir3, trace := ((w.log Call.close).log
        (Call.rename l.filename (rotatedName l sys))).trace } : World).log
          (Call.spawn (rotatedName l sys)))
      else { dir := dir3, trace := ((w.log Call.close).log
        (Call.rename l.filename (rotatedName l sys))).trace }) =
      afterRename sys l w dir3 := rfl
  rw [hw, hc]
  simp only [hop, Bool.false_eq_true, if_false, fsOpenAppend, log_dir, hl, log_trace]

theorem Write_rotate_ok (sys : Sys) (p : Bytes) (l : Logger) (w : World)
    (dir3 : List DirEntry) (hc : l.size + (p.length : Int) ≥ l.maxSize)
    (hopen : l.fileOpen = true) (hclose : sys.closeErr = false)
    (hren : sys.renameErr = false)
    (hfs : fsRename w.dir l.filename (rotatedName l sys) = some dir3)
    (hrd : sys.readDirErr = false) (hstat : ∀ n, sys.statErr n = false)
    (hm : 0 ≤ l.maxFiles) (hop : sys.openErr = false) (hsw : sys.shortWrite = none)
    (hfresh : ∀ e ∈ (afterCleanup sys l (afterRename sys l w dir3)).dir,
      e.name ≠ l.filename) :
    Write sys p l w = some (p.length, false,
      { l with fileOpen := true, size := (p.length : Int) },
      { dir := fsAppend ((afterCleanup sys l (afterRename sys l w dir3)).dir ++
          [freshEntry l.filename sys.time]) l.filename p sys.time,
        trace := (afterCleanup sys l (afterRename sys l w dir3)).trace ++
          [Call.openFile l.filename] ++ [Call.write p.length] }) := by
  unfold Write
  rw [if_pos hc, rotate_ok sys l w dir3 hopen hclose hren hfs hrd hstat hm hop hfresh]
  simp only [fileWrite, hsw, Bool.not_true, Bool.false_eq_true, if_false, World.log,
    Int.zero_add]

theorem afterRename_dir (sys : Sys) (l : Logger) (w : World) (dir3 : List DirEntry) :
    (afterRename sys l w dir3).dir = dir3 := by
  unfold afterRename
  simp only
  split <;> rfl

theorem afterRename_trace (sys : Sys) (l : Logger) (w : World) (dir3 : List DirEntry) :
    (afterRename sys l w dir3).trace =
      w.trace ++ [Call.close] ++ [Call.rename l.filename (rotatedName l sys)] ++
        (if l.compress then [Call.spawn (rotatedName l sys)] else []) := by
  unfold afterRename
  simp only
  split <;> simp [World.log]

theorem removeAll_trace_eq (sys : Sys) (ns : List Name) (w : World) :
    (removeAll sys ns w).trace = w.trace ++ ns.map Call.remove := by
  induction ns generalizing w with
  | nil => simp [removeAll]
  | cons n ns ih =>
    unfold removeAll
    rw [ih]
    split <;> simp [World.log]

theorem afterCleanup_dir (sys : Sys) (l : Logger) (w : World)
    (hrem : ∀ n, sys.removeErr n = false) :
    (afterCleanup sys l w).dir =
      w.dir.filter (fun e => decide (e.name ∉ removedNames l w.dir)) := by
  unfold afterCleanup removedNames
  split
  · rw [removeAll_dir sys hrem, log_dir]
  · simp [log_dir]

theorem afterCleanup_trace (sys : Sys) (l : Logger) (w : World) :
    (afterCleanup sys l w).trace =
      w.trace ++ [Call.readDir] ++ (removedNames l w.dir).map Call.remove := by
  unfold afterCleanup removedNames
  split
  · rw [removeAll_trace_eq, log_trace]
  · simp [log_trace]

/-- In a list in descending order of the key without repetition, an element
with fewer than m other elements at or above its key is among the first m. -/
theorem not_mem_drop_of_few {α : Type} [DecidableEq α] (key : α → Nat) (s : List α)
    (hs : s.Pairwise (fun a b => key b ≤ key a)) (hnd : s.Nodup) (x : α) (m : Nat)
    (hcount : (s.filter (fun y => decide (y ≠ x) && decide (key x ≤ key y))).length < m) :
    x ∉ s.drop m := by
  intro hx
  have hsplit := List.take_append_drop m s
  rw [← hsplit] at hs hnd
  rw [List.pairwise_append] at hs
  have hdis := (List.nodup_append.mp hnd).2.2
  have hall : ∀ y ∈ s.take m,
      (decide (y ≠ x) && decide (key x ≤ key y)) = true := by
    intro y hy
    have h1 := hs.2.2 y hy x hx
    have h2 : y ≠ x := by
      intro h; subst h
      exact hdis hy hx
    simp [h1, h2]
  have hsub : List.Sublist
      ((s.take m).filter (fun y => decide (y ≠ x) && decide (key x ≤ key y)))
      (s.filter (fun y => decide (y ≠ x) && decide (key x ≤ key y))) :=
    (List.take_sublist m s).filter _
  rw [List.filter_eq_self.mpr hall] at hsub
  have hlen := hsub.length_le
  have hlt : m < s.length := by
    by_contra hge
    have : s.drop m = [] := List.drop_eq_nil_of_le (by omega)
    rw [this] at hx
    cases hx
  rw [List.length_take] at hlen
  omega

theorem logFiles_nodup (l : Logger) (dir : List DirEntry)
    (hn : (dir.map (fun e => e.name)).Nodup) : (logFiles l dir).Nodup := by
  unfold logFiles
  exact ((List.filter_sublist dir).map (fun e => e.name)).nodup hn

theorem rotated_renamed_filter (l : Logger) (dir : List DirEntry) (rot : Name)
    (Qt : DirEntry → Bool) :
    (rotated l ((dir.filter (fun f => f.name != rot)).map
        (renameEntry l.filename rot))).filter (fun f => decide (f.name ≠ rot) && Qt f) =
      (rotated l dir).filter (fun f => decide (f.name ≠ rot) && Qt f) := by
  unfold rotated
  rw [List.filter_filter, List.filter_filter, List.filter_map]
  have h1 : ∀ g ∈ (dir.filter (fun f => f.name != rot)).filter
      ((fun a => (decide (a.name ≠ rot) && Qt a) && isRotated l a) ∘
        renameEntry l.filename rot), renameEntry l.filename rot g = g := by
    intro g hg
    have hp := (List.mem_filter.mp hg).2
    simp only [Function.comp] at hp
    unfold renameEntry at hp ⊢
    by_cases hgn : g.name = l.filename
    · simp [hgn] at hp
    · have : (g.name == l.filename) = false := by simpa using hgn
      simp [this]
  rw [List.map_congr_left h1, List.map_id']
  have h2 : (dir.filter (fun f => f.name != rot)).filter
      ((fun a => (decide (a.name ≠ rot) && Qt a) && isRotated l a) ∘
        renameEntry l.filename rot) =
      (dir.filter (fun f => f.name != rot)).filter
        (fun a => (decide (a.name ≠ rot) && Qt a) && isRotated l a) := by
    apply List.filter_congr
    intro g _
    simp only [Function.comp]
    by_cases hgn : g.name = l.filename
    · have hr := active_not_rotated l g hgn
      unfold renameEntry
      simp [hgn, hr]
    · have : (g.name == l.filename) = false := by simpa using hgn
      unfold renameEntry
      simp [this]
  rw [h2, List.filter_filter]
  apply List.filter_congr
  intro g _
  by_cases hgr : g.name = rot <;> simp [hgr]

/-- The file just rotated is not handed to os.Remove when fewer than maxFiles
other selected entries have a modification time at or after its own. -/
theorem rotated_kept (l : Logger) (dir : List DirEntry) (rot : Name) (a : DirEntry)
    (hn : (dir.map (fun e => e.name)).Nodup) (ha : a ∈ dir) (han : a.name = l.filename)
    (hne : l.filename ≠ rot)
    (hkeep : ((rotated l dir).filter
      (fun f => decide (f.name ≠ rot) && decide (a.modTime ≤ f.modTime))).length <
        l.maxFiles.toNat) :
    rot ∉ removedNames l ((dir.filter (fun f => f.name != rot)).map
      (renameEntry l.filename rot)) := by
  generalize hD : (dir.filter (fun f => f.name != rot)).map (renameEntry l.filename rot) = D3
  have hn3 : (D3.map (fun e => e.name)).Nodup := by
    rw [← hD]; exact renamed_nodup dir l.filename rot hn
  have ha3 : ({ a with name := rot } : DirEntry) ∈ D3 := by
    rw [← hD, mem_renamed dir l.filename rot a hn ha han hne]
    exact Or.inl rfl
  unfold removedNames
  split
  · apply not_mem_drop_of_few (modKey D3) _
      (sortDescLoop_sorted (modKey D3) (logFiles l D3) [] List.Pairwise.nil)
    · have hp := sortDescLoop_perm (modKey D3) (logFiles l D3) []
      rw [List.nil_append] at hp
      exact hp.nodup_iff.mpr (logFiles_nodup l D3 hn3)
    · have hp := sortDescLoop_perm (modKey D3) (logFiles l D3) []
      rw [List.nil_append] at hp
      rw [(hp.filter _).length_eq]
      have hk : modKey D3 rot = a.modTime := modKey_of_mem D3 hn3 _ ha3
      have he : ((logFiles l D3).filter
          (fun y => decide (y ≠ rot) && decide (modKey D3 rot ≤ modKey D3 y))).length =
          ((rotated l D3).filter
            (fun f => decide (f.name ≠ rot) && decide (a.modTime ≤ f.modTime))).length := by
        unfold logFiles
        rw [List.filter_map, List.length_map]
        congr 1
        apply List.filter_congr
        intro f hf
        simp only [Function.comp]
        rw [hk, modKey_of_mem D3 hn3 f (List.mem_of_mem_filter hf)]
      rw [he, ← hD, rotated_renamed_filter l dir rot (fun f => decide (a.modTime ≤ f.modTime))]
      exact hkeep
  · simp

/-! ## A write that rotates -/

theorem fsAppend_mem_other (dir : List DirEntry) (n : Name) (p : Bytes) (t : Nat)
    (e : DirEntry) (he : e ∈ dir) (hne : e.name ≠ n) : e ∈ fsAppend dir n p t := by
  unfold fsAppend
  rw [List.mem_map]
  refine ⟨e, he, ?_⟩
  have : (e.name == n) = false := by simpa using hne
  simp [this]

theorem fsAppend_mem_same (dir : List DirEntry) (n : Name) (p : Bytes) (t : Nat)
    (e : DirEntry) (he : e ∈ dir) (hn : e.name = n) :
    ({ e with data := e.data ++ p, modTime := if p = [] then e.modTime else t } : DirEntry) ∈
      fsAppend dir n p t := by
  unfold fsAppend
  rw [List.mem_map]
  refine ⟨e, he, ?_⟩
  simp [hn]

/-- C3, as the code does it. On a sink with compression off whose handle is
open, whose directory has unique names and holds the active file, when
size + len(p) >= maxSize, every call succeeds, and fewer than maxFiles other
selected entries have a modification time at or after that of the active
file, Write rotates once and then appends: it returns (len(p), nil), the
counter is len(p), the content of the former active file is, unchanged, under
the name path.stamp, the active path is a new file that holds exactly p, and
the calls made are one Close, one Rename, the listing, the removals, one
OpenFile and the append.  With maxSize = 100, a
write of 60 bytes leaves the counter at 60 without a rotation and a write of
50 more bytes rotates once and leaves the counter at 50 and one rotated file
of 60 bytes. -/
theorem Write_rotates_once (sys : Sys) (p : Bytes) (l : Logger) (w : World) (a : DirEntry)
    (hopen : l.fileOpen = true) (hc : l.size + (p.length : Int) ≥ l.maxSize)
    (hn : (w.dir.map (fun e => e.name)).Nodup) (ha : a ∈ w.dir)
    (han : a.name = l.filename) (hadir : a.isDir = false)
    (htgt : ∀ t ∈ w.dir, t.name = rotatedName l sys → t.isDir = false)
    (hclose : sys.closeErr = false) (hren : sys.renameErr = false)
    (hrd : sys.readDirErr = false) (hstat : ∀ n, sys.statErr n = false)
    (hrem : ∀ n, sys.removeErr n = false) (hop : sys.openErr = false)
    (hsw : sys.shortWrite = none)
    (hcomp : l.compress = false)
    (hkeep : (((rotated l w.dir).filter (fun f =>
      decide (f.name ≠ rotatedName l sys) && decide (a.modTime ≤ f.modTime))).length : Int) <
        l.maxFiles) :
    (∃ (w2 : World) (removed : List Name), Write sys p l w = some (p.length, false,
        { l with fileOpen := true, size := (p.length : Int) }, w2) ∧
      lookup w2.dir (rotatedName l sys) = some { a with name := rotatedName l sys } ∧
      lookup w2.dir l.filename =
        some { name := l.filename, isDir := false, modTime := sys.time, data := p } ∧
      w2.trace = w.trace ++ [Call.close, Call.rename l.filename (rotatedName l sys),
        Call.readDir] ++ removed.map Call.remove ++
        [Call.openFile l.filename, Call.write p.length]) ∧
    Write (okSys "20240101-000001" 2) (payload 60) (smallLogger 0) (freshWorld []) =
      some (60, false, smallLogger 60,
        { dir := [{ name := "app.log".toList, isDir := false, modTime := 2,
                    data := payload 60 }],
          trace := [Call.write 60] }) ∧
    Write (okSys "20240101-000002" 3) (payload 50) (smallLogger 60)
        { dir := [{ name := "app.log".toList, isDir := false, modTime := 2,
                    data := payload 60 }],
          trace := [Call.write 60] } =
      some (50, false, smallLogger 50,
        { dir := [{ name := "app.log.20240101-000002".toList, isDir := false, modTime := 2,
                    data := payload 60 },
                  { name := "app.log".toList, isDir := false, modTime := 3,
                    data := payload 50 }],
          trace := [Call.write 60, Call.close,
            Call.rename "app.log".toList "app.log.20240101-000002".toList, Call.readDir,
            Call.openFile "app.log".toList, Call.write 50] }) := by
  refine ⟨?_, by decide, by decide⟩
  have hne := rotatedName_ne l sys
  have hm : 0 ≤ l.maxFiles := by
    have : (0 : Int) ≤ (((rotated l w.dir).filter (fun f =>
      decide (f.name ≠ rotatedName l sys) && decide (a.modTime ≤ f.modTime))).length : Int) :=
      Int.ofNat_nonneg _
    omega
  have hfs := fsRename_ok w.dir l.filename (rotatedName l sys) a hn ha han hadir hne htgt
  generalize hD : (w.dir.filter (fun f => f.name != rotatedName l sys)).map
    (renameEntry l.filename (rotatedName l sys)) = D3 at hfs
  have hn3 : (D3.map (fun e => e.name)).Nodup := by
    rw [← hD]; exact renamed_nodup w.dir l.filename _ hn
  have hmem3 := fun f => mem_renamed w.dir l.filename (rotatedName l sys) a hn ha han hne f
  rw [hD] at hmem3
  have ha3 : ({ a with name := rotatedName l sys } : DirEntry) ∈ D3 :=
    (hmem3 _).mpr (Or.inl rfl)
  have hkept : rotatedName l sys ∉ removedNames l D3 := by
    rw [← hD]
    apply rotated_kept l w.dir (rotatedName l sys) a hn ha han hne
    omega
  have hd5 := afterCleanup_dir sys l (afterRename sys l w D3) hrem
  rw [afterRename_dir] at hd5
  have hfresh : ∀ e ∈ (afterCleanup sys l (afterRename sys l w D3)).dir,
      e.name ≠ l.filename := by
    intro e he
    rw [hd5] at he
    have he3 := List.mem_of_mem_filter he
    rcases (hmem3 e).mp he3 with rfl | ⟨_, h2, _⟩
    · exact fun h => hne h.symm
    · exact h2
  have hW := Write_rotate_ok sys p l w D3 hc hopen hclose hren hfs hrd hstat hm hop hsw hfresh
  refine ⟨_, removedNames l D3, hW, ?_, ?_, ?_⟩
  · -- the rotated file
    have hn7 : ((fsAppend ((afterCleanup sys l (afterRename sys l w D3)).dir ++
        [freshEntry l.filename sys.time]) l.filename p sys.time).map
          (fun e => e.name)).Nodup := by
      rw [fsAppend_names, List.map_append, hd5]
      refine List.nodup_append.mpr ⟨?_, by simp [freshEntry], ?_⟩
      · exact ((List.filter_sublist D3).map (fun e => e.name)).nodup hn3
      · intro x hx hx2
        simp only [freshEntry, List.map_cons, List.map_nil, List.mem_singleton] at hx2
        obtain ⟨e, he, rfl⟩ := List.mem_map.mp hx
        rw [← hd5] at he
        exact hfresh e he hx2
    have hin : ({ a with name := rotatedName l sys } : DirEntry) ∈
        fsAppend ((afterCleanup sys l (afterRename sys l w D3)).dir ++
          [freshEntry l.filename sys.time]) l.filename p sys.time := by
      apply fsAppend_mem_other
      · rw [hd5]
        apply List.mem_append_left
        exact List.mem_filter.mpr ⟨ha3, by simpa using hkept⟩
      · exact fun h => hne h.symm
    exact lookup_of_mem _ hn7 _ hin
  · -- the new active file
    have hn7 : ((fsAppend ((afterCleanup sys l (afterRename sys l w D3)).dir ++
        [freshEntry l.filename sys.time]) l.filename p sys.time).map
          (fun e => e.name)).Nodup := by
      rw [fsAppend_names, List.map_append, hd5]
      refine List.nodup_append.mpr ⟨?_, by simp [freshEntry], ?_⟩
      · exact ((List.filter_sublist D3).map (fun e => e.name)).nodup hn3
      · intro x hx hx2
        simp only [freshEntry, List.map_cons, List.map_nil, List.mem_singleton] at hx2
        obtain ⟨e, he, rfl⟩ := List.mem_map.mp hx
        rw [← hd5] at he
        exact hfresh e he hx2
    have hin := fsAppend_mem_same ((afterCleanup sys l (afterRename sys l w D3)).dir ++
        [freshEntry l.filename sys.time]) l.filename p sys.time
        (freshEntry l.filename sys.time) (List.mem_append_right _ (List.mem_singleton_self _))
        rfl
    have := lookup_of_mem _ hn7 _ hin
    simpa [freshEntry] using this
  · rw [afterCleanup_trace, afterRename_trace, afterRename_dir, hcomp]
    simp

/-- C3 at a write of 50 bytes on a sink that holds 60 of 100. -/
theorem Write_rotates_once_witness :
    ∃ (w2 : World) (removed : List Name),
      Write (okSys "20240101-000002" 3) (payload 50) (smallLogger 60)
        (freshWorld (payload 60)) = some ((payload 50).length, false,
          { smallLogger 60 with fileOpen := true, size := ((payload 50).length : Int) }, w2) ∧
      lookup w2.dir (rotatedName (smallLogger 60) (okSys "20240101-000002" 3)) =
        some { name := rotatedName (smallLogger 60) (okSys "20240101-000002" 3),
               isDir := false, modTime := 1, data := payload 60 } ∧
      lookup w2.dir (smallLogger 60).filename =
        some { name := (smallLogger 60).filename, isDir := false,
               modTime := (okSys "20240101-000002" 3).time, data := payload 50 } ∧
      w2.trace = (freshWorld (payload 60)).trace ++ [Call.close,
          Call.rename (smallLogger 60).filename
            (rotatedName (smallLogger 60) (okSys "20240101-000002" 3)), Call.readDir] ++
        removed.map Call.remove ++
        [Call.openFile (smallLogger 60).filename, Call.write (payload 50).length] :=
  (Write_rotates_once (okSys "20240101-000002" 3) (payload 50) (smallLogger 60)
    (freshWorld (payload 60))
    { name := "app.log".toList, isDir := false, modTime := 1, data := payload 60 }
    rfl (by decide) (by decide) (by decide) rfl rfl (by decide) rfl rfl rfl (fun _ => rfl)
    (fun _ => rfl) rfl rfl rfl (by decide)).1

/-- C3, counterexample. Every call succeeds and size + len(p)
>= maxSize, but a file of an earlier rotation is newer than the active file
and maxFiles is 1, so the retention pass removes the file just rotated: after
the call the 60 bytes are under no name. -/
theorem Write_rotation_loses_content :
    (Write (okSys "20240101-000001" 3) (payload 50) tightLogger staleWorld).map
      (fun r => (r.1, r.2.1, r.2.2.2.dir, r.2.2.2.trace)) =
      some (50, false,
        [{ name := "app.log.20231231-235959.gz".toList, isDir := false, modTime := 2,
           data := payload 7 },
         { name := "app.log".toList, isDir := false, modTime := 3, data := payload 50 }],
        [Call.close, Call.rename "app.log".toList "app.log.20240101-000001".toList,
         Call.readDir, Call.remove "app.log.20240101-000001".toList,
         Call.openFile "app.log".toList, Call.write 50]) := by
  decide

/-! ## One write of a run in which every call succeeds -/

theorem fsAppend_absent (dir : List DirEntry) (n : Name) (p : Bytes) (t : Nat)
    (h : ∀ e ∈ dir, e.name ≠ n) : fsAppend dir n p t = dir := by
  unfold fsAppend
  rw [List.map_congr_left (g := id), List.map_id]
  intro e he
  have : (e.name == n) = false := by simpa using h e he
  simp [this]

theorem Write_append_ok (sys : Sys) (p : Bytes) (l : Logger) (w : World)
    (hc : l.size + (p.length : Int) < l.maxSize) (hopen : l.fileOpen = true)
    (hsw : sys.shortWrite = none) :
    Write sys p l w = some (p.length, false, { l with size := l.size + (p.length : Int) },
      { dir := fsAppend w.dir l.filename p sys.time,
        trace := w.trace ++ [Call.write p.length] }) := by
  rw [Write_of_lt sys p l w hc]
  simp [fileWrite, hopen, hsw, World.log]

theorem isRotated_rotatedName (l : Logger) (sys : Sys) (e : DirEntry)
    (hd : e.isDir = false) (hn : e.name = rotatedName l sys) : isRotated l e = true := by
  unfold isRotated startsWith
  rw [hd, hn]
  simp only [Bool.not_false, Bool.true_and]
  rw [List.isPrefixOf_iff_prefix]
  unfold rotatedName
  exact List.prefix_append _ _

theorem isSinkFile_rename (l : Logger) (sys : Sys) (dir : List DirEntry)
    (hd : ∀ e ∈ dir, e.name = l.filename → e.isDir = false) (e : DirEntry) (he : e ∈ dir) :
    isSinkFile l (renameEntry l.filename (rotatedName l sys) e) = isSinkFile l e ∧
    (renameEntry l.filename (rotatedName l sys) e).data = e.data := by
  unfold renameEntry
  by_cases h : e.name = l.filename
  · have h1 : isRotated l { e with name := rotatedName l sys } = true :=
      isRotated_rotatedName l sys _ (hd e he h) rfl
    simp [h, isSinkFile, h1]
  · have : (e.name == l.filename) = false := by simpa using h
    simp [this]

theorem sinkBytes_rename (l : Logger) (sys : Sys) (dir : List DirEntry)
    (hd : ∀ e ∈ dir, e.name = l.filename → e.isDir = false) :
    sinkBytes l (dir.map (renameEntry l.filename (rotatedName l sys))) = sinkBytes l dir := by
  unfold sinkBytes
  rw [List.map_map]
  congr 1
  apply List.map_congr_left
  intro e he
  obtain ⟨h1, h2⟩ := isSinkFile_rename l sys dir hd e he
  simp only [Function.comp, h1, h2]

theorem sinkCount_rename (l : Logger) (sys : Sys) (dir : List DirEntry)
    (hd : ∀ e ∈ dir, e.name = l.filename → e.isDir = false) :
    sinkCount l (dir.map (renameEntry l.filename (rotatedName l sys))) = sinkCount l dir := by
  unfold sinkCount
  rw [List.countP_map]
  apply List.countP_congr
  intro e he
  simp only [Function.comp, (isSinkFile_rename l sys dir hd e he).1]

theorem sinkBytes_append (l : Logger) (dir : List DirEntry) (p : Bytes) (t : Nat)
    (a : DirEntry) (hn : (dir.map (fun e => e.name)).Nodup) (ha : a ∈ dir)
    (han : a.name = l.filename) :
    sinkBytes l (fsAppend dir l.filename p t) = sinkBytes l dir + p.length := by
  induction dir with
  | nil => cases ha
  | cons d ds ih =>
    rw [List.map_cons, List.nodup_cons] at hn
    by_cases hdn : d.name = l.filename
    · have habs : ∀ e ∈ ds, e.name ≠ l.filename := by
        intro e he h
        exact hn.1 (by rw [hdn, ← h]; exact List.mem_map_of_mem (fun e => e.name) he)
      have h1 : fsAppend (d :: ds) l.filename p t =
          { d with data := d.data ++ p, modTime := if p = [] then d.modTime else t } ::
            fsAppend ds l.filename p t := by
        simp [fsAppend, hdn]
      rw [h1, fsAppend_absent ds _ p t habs]
      simp only [sinkBytes, List.map_cons, List.sum_cons, isSinkFile, hdn, beq_self_eq_true,
        Bool.true_or, if_true, List.length_append]
      omega
    · have ha2 : a ∈ ds := by
        rcases List.mem_cons.mp ha with rfl | h
        · exact absurd han hdn
        · exact h
      have h1 : fsAppend (d :: ds) l.filename p t = d :: fsAppend ds l.filename p t := by
        have : (d.name == l.filename) = false := by simpa using hdn
        simp only [fsAppend, List.map_cons, this, Bool.false_eq_true, if_false]
      rw [h1]
      have := ih hn.2 ha2
      simp only [sinkBytes, List.map_cons, List.sum_cons] at this ⊢
      omega

theorem active_unique (dir : List DirEntry) (hn : (dir.map (fun e => e.name)).Nodup)
    (a : DirEntry) (ha : a ∈ dir) (e : DirEntry) (he : e ∈ dir) (h : e.name = a.name) :
    e = a := by
  have h1 := lookup_of_mem dir hn e he
  have h2 := lookup_of_mem dir hn a ha
  rw [h] at h1
  rw [h1] at h2
  exact Option.some.inj h2

theorem renamed_no_active (l : Logger) (sys : Sys) (dir : List DirEntry) :
    ∀ e ∈ dir.map (renameEntry l.filename (rotatedName l sys)), e.name ≠ l.filename := by
  intro e he
  obtain ⟨g, _, rfl⟩ := List.mem_map.mp he
  unfold renameEntry
  by_cases h : g.name = l.filename
  · simp only [h, beq_self_eq_true, if_true]
    exact fun h2 => rotatedName_ne l sys h2.symm
  · have : (g.name == l.filename) = false := by simpa using h
    simpa [this] using h

theorem Write_rotate_fresh (sys : Sys) (p : Bytes) (l : Logger) (w : World) (a : DirEntry)
    (hc : l.size + (p.length : Int) ≥ l.maxSize) (hopen : l.fileOpen = true)
    (hn : (w.dir.map (fun e => e.name)).Nodup) (ha : a ∈ w.dir)
    (han : a.name = l.filename) (hadir : a.isDir = false) (hok : AllOk sys)
    (hcomp : l.compress = false)
    (hfresh : ∀ e ∈ w.dir, e.name ≠ rotatedName l sys)
    (hcount : (sinkCount l w.dir : Int) ≤ l.maxFiles) :
    Write sys p l w = some (p.length, false,
      { l with fileOpen := true, size := (p.length : Int) },
      { dir := w.dir.map (renameEntry l.filename (rotatedName l sys)) ++
          [activeEntry l sys p],
        trace := w.trace ++ [Call.close, Call.rename l.filename (rotatedName l sys),
          Call.readDir, Call.openFile l.filename, Call.write p.length] }) := by
  obtain ⟨hclose, hren, hrd, hstat, hrem, hop, hsw⟩ := hok
  have hne := rotatedName_ne l sys
  have hfil : w.dir.filter (fun f => f.name != rotatedName l sys) = w.dir := by
    rw [List.filter_eq_self]
    intro e he
    simpa using hfresh e he
  have hfs := fsRename_ok w.dir l.filename (rotatedName l sys) a hn ha han hadir hne
    (fun t ht htn => absurd htn (hfresh t ht))
  rw [hfil] at hfs
  have hd : ∀ e ∈ w.dir, e.name = l.filename → e.isDir = false := by
    intro e he h
    rw [active_unique w.dir hn a ha e he (h.trans han.symm)]
    exact hadir
  have hm : 0 ≤ l.maxFiles := by
    have : (0 : Int) ≤ (sinkCount l w.dir : Int) := Int.ofNat_nonneg _
    omega
  have hrm : removedNames l (w.dir.map (renameEntry l.filename (rotatedName l sys))) = [] := by
    unfold removedNames
    rw [if_neg]
    have h1 : (logFiles l (w.dir.map (renameEntry l.filename (rotatedName l sys)))).length ≤
        sinkCount l (w.dir.map (renameEntry l.filename (rotatedName l sys))) := by
      unfold logFiles sinkCount
      rw [List.length_map, ← List.countP_eq_length_filter]
      apply List.countP_mono_left
      intro e _ h
      simp [isSinkFile, h]
    rw [sinkCount_rename l sys w.dir hd] at h1
    omega
  have hd5 := afterCleanup_dir sys l
    (afterRename sys l w (w.dir.map (renameEntry l.filename (rotatedName l sys)))) hrem
  rw [afterRename_dir, hrm] at hd5
  simp only [List.not_mem_nil, not_false_eq_true, decide_True, List.filter_true] at hd5
  have hnoact := renamed_no_active l sys w.dir
  have hW := Write_rotate_ok sys p l w _ hc hopen hclose hren hfs hrd hstat hm hop hsw
    (by rw [hd5]; exact hnoact)
  rw [hd5] at hW
  have hf : fsAppend (w.dir.map (renameEntry l.filename (rotatedName l sys)) ++
      [freshEntry l.filename sys.time]) l.filename p sys.time =
      w.dir.map (renameEntry l.filename (rotatedName l sys)) ++ [activeEntry l sys p] := by
    have h1 := fsAppend_absent _ l.filename p sys.time hnoact
    unfold fsAppend at h1 ⊢
    rw [List.map_append, h1]
    simp [freshEntry, activeEntry]
  rw [hf] at hW
  have htr : (afterCleanup sys l (afterRename sys l w
      (w.dir.map (renameEntry l.filename (rotatedName l sys))))).trace =
      w.trace ++ [Call.close, Call.rename l.filename (rotatedName l sys), Call.readDir] := by
    rw [afterCleanup_trace, afterRename_dir, hrm, afterRename_trace, hcomp]
    simp
  rw [htr] at hW
  rw [hW]
  simp

/-! ## The directory after one write -/

theorem rotStep_nodup (l : Logger) (sys : Sys) (p : Bytes) (dir : List DirEntry)
    (hn : (dir.map (fun e => e.name)).Nodup)
    (hfresh : ∀ e ∈ dir, e.name ≠ rotatedName l sys) :
    ((dir.map (renameEntry l.filename (rotatedName l sys)) ++
      [activeEntry l sys p]).map (fun e => e.name)).Nodup := by
  have hfil : dir.filter (fun f => f.name != rotatedName l sys) = dir := by
    rw [List.filter_eq_self]
    intro e he
    simpa using hfresh e he
  have h3 := renamed_nodup dir l.filename (rotatedName l sys) hn
  rw [hfil] at h3
  rw [List.map_append]
  refine List.nodup_append.mpr ⟨h3, by simp, ?_⟩
  intro x hx hx2
  simp only [activeEntry, List.map_cons, List.map_nil, List.mem_singleton] at hx2
  obtain ⟨e, he, rfl⟩ := List.mem_map.mp hx
  exact renamed_no_active l sys dir e he hx2

theorem rotStep_bytes (l : Logger) (sys : Sys) (p : Bytes) (dir : List DirEntry)
    (hd : ∀ e ∈ dir, e.name = l.filename → e.isDir = false) :
    sinkBytes l (dir.map (renameEntry l.filename (rotatedName l sys)) ++
      [activeEntry l sys p]) = sinkBytes l dir + p.length := by
  have h := sinkBytes_rename l sys dir hd
  unfold sinkBytes at h ⊢
  rw [List.map_append, List.sum_append, h]
  simp [activeEntry, isSinkFile]

theorem rotStep_count (l : Logger) (sys : Sys) (p : Bytes) (dir : List DirEntry)
    (hd : ∀ e ∈ dir, e.name = l.filename → e.isDir = false) :
    sinkCount l (dir.map (renameEntry l.filename (rotatedName l sys)) ++
      [activeEntry l sys p]) = sinkCount l dir + 1 := by
  have h := sinkCount_rename l sys dir hd
  unfold sinkCount at h ⊢
  rw [List.countP_append, h]
  simp [activeEntry, isSinkFile]

theorem rotStep_frame (l : Logger) (sys : Sys) (p : Bytes) (dir : List DirEntry)
    (e : DirEntry) (he : e ∈ dir) (hne : e.name ≠ l.filename) :
    e ∈ dir.map (renameEntry l.filename (rotatedName l sys)) ++ [activeEntry l sys p] := by
  apply List.mem_append_left
  rw [List.mem_map]
  refine ⟨e, he, ?_⟩
  have : (e.name == l.filename) = false := by simpa using hne
  simp [renameEntry, this]

theorem rotStep_rotated (l : Logger) (sys : Sys) (p : Bytes) (dir : List DirEntry)
    (a : DirEntry) (ha : a ∈ dir) (han : a.name = l.filename) :
    ({ a with name := rotatedName l sys } : DirEntry) ∈
      dir.map (renameEntry l.filename (rotatedName l sys)) ++ [activeEntry l sys p] := by
  apply List.mem_append_left
  rw [List.mem_map]
  exact ⟨a, ha, by simp [renameEntry, han]⟩

theorem rotStep_names (l : Logger) (sys : Sys) (p : Bytes) (dir : List DirEntry)
    (n : Name) (h : n ∈ (dir.map (renameEntry l.filename (rotatedName l sys)) ++
      [activeEntry l sys p]).map (fun e => e.name)) :
    n = l.filename ∨ n = rotatedName l sys ∨ n ∈ dir.map (fun e => e.name) := by
  obtain ⟨e, he, rfl⟩ := List.mem_map.mp h
  rcases List.mem_append.mp he with h1 | h1
  · obtain ⟨g, hg, rfl⟩ := List.mem_map.mp h1
    unfold renameEntry
    by_cases hgn : g.name = l.filename
    · right; left; simp [hgn]
    · right; right
      have : (g.name == l.filename) = false := by simpa using hgn
      simp only [this, Bool.false_eq_true, if_false]
      exact List.mem_map_of_mem (fun e => e.name) hg
  · left
    rw [List.mem_singleton] at h1
    rw [h1]; rfl

theorem appStep_count (l : Logger) (dir : List DirEntry) (n : Name) (p : Bytes) (t : Nat) :
    sinkCount l (fsAppend dir n p t) = sinkCount l dir := by
  unfold sinkCount fsAppend
  rw [List.countP_map]
  apply List.countP_congr
  intro e _
  simp only [Function.comp]
  by_cases h : (e.name == n) = true
  · simp [h, isSinkFile, isRotated]
  · simp [h]

theorem stamp_name_ne (fn s : Name) : fn ≠ fn ++ ['.'] ++ s := by
  intro h
  have := congrArg List.length h
  simp at this

theorem stamp_name_inj (fn s t : Name) (h : fn ++ ['.'] ++ s = fn ++ ['.'] ++ t) : s = t := by
  simpa using h

/-! ## A run of writes in which every call succeeds -/

theorem rotationStamps_pos (maxSize size : Int) (sys : Sys) (p : Bytes)
    (ws : List (Sys × Bytes)) (hc : size + (p.length : Int) ≥ maxSize) :
    rotationStamps maxSize size ((sys, p) :: ws) =
      sys.stamp :: rotationStamps maxSize (p.length : Int) ws := by
  rw [rotationStamps, if_pos hc]

theorem rotationStamps_neg (maxSize size : Int) (sys : Sys) (p : Bytes)
    (ws : List (Sys × Bytes)) (hc : ¬ size + (p.length : Int) ≥ maxSize) :
    rotationStamps maxSize size ((sys, p) :: ws) =
      rotationStamps maxSize (size + (p.length : Int)) ws := by
  rw [rotationStamps, if_neg hc]

theorem runWrites_layout (ws : List (Sys × Bytes)) :
    ∀ (l : Logger) (w : World) (a : DirEntry),
      l.fileOpen = true → l.compress = false →
      (w.dir.map (fun e => e.name)).Nodup → a ∈ w.dir →
      a.name = l.filename → a.isDir = false → (∀ x ∈ ws, AllOk x.1) →
      (rotationStamps l.maxSize l.size ws).Nodup →
      (∀ s ∈ rotationStamps l.maxSize l.size ws,
        (l.filename ++ ['.'] ++ s) ∉ w.dir.map (fun e => e.name)) →
      (sinkCount l w.dir : Int) + ((rotationStamps l.maxSize l.size ws).length : Int) ≤
        l.maxFiles + 1 →
      RunSpec l w a ws := by
  induction ws with
  | nil =>
    intro l w a hopen hcomp hn ha han hadir hok hst hfr hcnt
    refine ⟨l, w, (l.filename, []), [], rfl, hn, by simp, by simp, by simp, ?_,
      ⟨a, ha, han, by simp⟩, by simp, fun e he _ => he, rfl, ⟨[], by simp, by simp⟩⟩
    intro g hg
    simp only [List.mem_singleton] at hg
    left; rw [hg]
  | cons x ws ih =>
    obtain ⟨sys, p⟩ := x
    intro l w a hopen hcomp hn ha han hadir hok hst hfr hcnt
    have hsys := hok (sys, p) (List.mem_cons_self _ _)
    have hok2 : ∀ x ∈ ws, AllOk x.1 := fun x hx => hok x (List.mem_cons_of_mem _ hx)
    unfold RunSpec
    by_cases hc : l.size + (p.length : Int) ≥ l.maxSize
    · rw [rotationStamps_pos l.maxSize l.size sys p ws hc] at hst hfr hcnt ⊢
      have hrot : rotatedName l sys = l.filename ++ ['.'] ++ sys.stamp := rfl
      have hnotin : sys.stamp ∉ rotationStamps l.maxSize (p.length : Int) ws :=
        (List.nodup_cons.mp hst).1
      have hfresh : ∀ e ∈ w.dir, e.name ≠ rotatedName l sys := by
        intro e he h
        refine hfr sys.stamp (List.mem_cons_self _ _) ?_
        rw [← hrot, ← h]
        exact List.mem_map_of_mem (fun e => e.name) he
      have hcount : (sinkCount l w.dir : Int) ≤ l.maxFiles := by
        simp only [List.length_cons, Nat.cast_add, Nat.cast_one] at hcnt
        have := Int.ofNat_nonneg (rotationStamps l.maxSize (p.length : Int) ws).length
        omega
      have hd : ∀ e ∈ w.dir, e.name = l.filename → e.isDir = false := by
        intro e he h
        rw [active_unique w.dir hn a ha e he (h.trans han.symm)]
        exact hadir
      have hW := Write_rotate_fresh sys p l w a hc hopen hn ha han hadir hsys hcomp hfresh
        hcount
      have IH := ih { l with fileOpen := true, size := (p.length : Int) }
        { dir := w.dir.map (renameEntry l.filename (rotatedName l sys)) ++
            [activeEntry l sys p],
          trace := w.trace ++ [Call.close, Call.rename l.filename (rotatedName l sys),
            Call.readDir, Call.openFile l.filename, Call.write p.length] }
        (activeEntry l sys p) rfl hcomp (rotStep_nodup l sys p w.dir hn hfresh)
        (List.mem_append_right _ (List.mem_singleton_self _)) rfl rfl hok2
        (List.nodup_cons.mp hst).2
        (by
          intro s hs hmem
          rcases rotStep_names l sys p w.dir _ hmem with h | h | h
          · exact stamp_name_ne l.filename s h.symm
          · rw [hrot] at h
            have := stamp_name_inj l.filename s sys.stamp h
            rw [this] at hs
            exact hnotin hs
          · exact hfr s (List.mem_cons_of_mem _ hs) h)
        (by
          show ((sinkCount l (w.dir.map (renameEntry l.filename (rotatedName l sys)) ++
            [activeEntry l sys p]) : Nat) : Int) +
            ((rotationStamps l.maxSize (p.length : Int) ws).length : Int) ≤ l.maxFiles + 1
          rw [rotStep_count l sys p w.dir hd]
          simp only [List.length_cons, Nat.cast_add, Nat.cast_one] at hcnt ⊢
          omega)
      obtain ⟨l2, w2, g0, gs, hrun, hn2, hbytes, hflat, hnames, hin, hhead, htail, hframe,
        hlen, calls, hcalls, hnospawn⟩ := IH
      have hb1 := rotStep_bytes l sys p w.dir hd
      have hrne : rotatedName l sys ≠ l.filename := fun h => rotatedName_ne l sys h.symm
      have hrnot : rotatedName l sys ∉ (g0 :: gs).map (fun g => g.1) := by
        intro hmem
        obtain ⟨g, hg, hg1⟩ := List.mem_map.mp hmem
        rcases hin g hg with h | ⟨s, hs, h⟩
        · exact hrne (hg1.symm.trans h)
        · have h2 : l.filename ++ ['.'] ++ s = l.filename ++ ['.'] ++ sys.stamp :=
            h.symm.trans (hg1.trans hrot)
          rw [stamp_name_inj l.filename s sys.stamp h2] at hs
          exact hnotin hs
      refine ⟨l2, w2, (rotatedName l sys, []), (g0.1, p :: g0.2) :: gs, ?_, hn2, ?_, ?_, ?_,
        ?_, ?_, ?_, ?_, ?_, ⟨[Call.close, Call.rename l.filename (rotatedName l sys),
          Call.readDir, Call.openFile l.filename, Call.write p.length] ++ calls, ?_, ?_⟩⟩
      · unfold runWrites
        rw [hW]
        exact hrun
      · have hb : sinkBytes l w2.dir = sinkBytes l (w.dir.map
            (renameEntry l.filename (rotatedName l sys)) ++ [activeEntry l sys p]) +
            (ws.map (fun x => x.2.length)).sum := hbytes
        rw [hb, hb1]
        simp only [List.map_cons, List.sum_cons]
        omega
      · simp only [List.map_cons, List.flatten_cons, List.nil_append, List.cons_append]
        rw [hflat]
      · simp only [List.map_cons] at hrnot hnames ⊢
        exact List.nodup_cons.mpr ⟨hrnot, hnames⟩
      · intro g hg
        rcases List.mem_cons.mp hg with rfl | hg2
        · right; exact ⟨sys.stamp, List.mem_cons_self _ _, hrot⟩
        · have hg3 : ∃ g2 ∈ g0 :: gs, g2.1 = g.1 := by
            rcases List.mem_cons.mp hg2 with rfl | h
            · exact ⟨g0, List.mem_cons_self _ _, rfl⟩
            · exact ⟨g, List.mem_cons_of_mem _ h, rfl⟩
          obtain ⟨g2, hg2m, hg2e⟩ := hg3
          rcases hin g2 hg2m with h | ⟨s, hs, h⟩
          · left; exact hg2e.symm.trans h
          · right; exact ⟨s, List.mem_cons_of_mem _ hs, hg2e.symm.trans h⟩
      · exact ⟨{ a with name := rotatedName l sys },
          hframe _ (rotStep_rotated l sys p w.dir a ha han) hrne, rfl, by simp⟩
      · intro g hg
        rcases List.mem_cons.mp hg with rfl | hg2
        · obtain ⟨e, he, hen, hed⟩ := hhead
          exact ⟨e, he, hen, by rw [hed]; simp [activeEntry]⟩
        · exact htail g hg2
      · intro e he hne
        exact hframe e (rotStep_frame l sys p w.dir e he hne) hne
      · simp only [List.length_cons, hlen]
      · rw [hcalls]; simp
      · intro n hmem
        rcases List.mem_append.mp hmem with h | h
        · simp at h
        · exact hnospawn n h
    · rw [rotationStamps_neg l.maxSize l.size sys p ws hc] at hst hfr hcnt ⊢
      have hW := Write_append_ok sys p l w (by omega) hopen hsys.2.2.2.2.2.2
      have ha2 := fsAppend_mem_same w.dir l.filename p sys.time a ha han
      have IH := ih { l with size := l.size + (p.length : Int) }
        { dir := fsAppend w.dir l.filename p sys.time,
          trace := w.trace ++ [Call.write p.length] }
        { a with data := a.data ++ p, modTime := if p = [] then a.modTime else sys.time }
        hopen hcomp (by rw [fsAppend_names]; exact hn) ha2 han hadir hok2 hst
        (by simp only [fsAppend_names]; exact hfr)
        (by
          show ((sinkCount l (fsAppend w.dir l.filename p sys.time) : Nat) : Int) +
            ((rotationStamps l.maxSize (l.size + (p.length : Int)) ws).length : Int) ≤
              l.maxFiles + 1
          rw [appStep_count]
          exact hcnt)
      obtain ⟨l2, w2, g0, gs, hrun, hn2, hbytes, hflat, hnames, hin, hhead, htail, hframe,
        hlen, calls, hcalls, hnospawn⟩ := IH
      have hb1 := sinkBytes_append l w.dir p sys.time a hn ha han
      refine ⟨l2, w2, (g0.1, p :: g0.2), gs, ?_, hn2, ?_, ?_, hnames, ?_, ?_, htail, ?_, hlen,
        ⟨Call.write p.length :: calls, ?_, ?_⟩⟩
      · unfold runWrites
        rw [hW]
        exact hrun
      · have hb : sinkBytes l w2.dir = sinkBytes l (fsAppend w.dir l.filename p sys.time) +
            (ws.map (fun x => x.2.length)).sum := hbytes
        rw [hb, hb1]
        simp only [List.map_cons, List.sum_cons]
        omega
      · simp only [List.map_cons, List.cons_append]
        rw [hflat]
      · intro g hg
        have hg3 : ∃ g2 ∈ g0 :: gs, g2.1 = g.1 := by
          rcases List.mem_cons.mp hg with rfl | h
          · exact ⟨g0, List.mem_cons_self _ _, rfl⟩
          · exact ⟨g, List.mem_cons_of_mem _ h, rfl⟩
        obtain ⟨g2, hg2m, hg2e⟩ := hg3
        rcases hin g2 hg2m with h | ⟨s, hs, h⟩
        · left; exact hg2e.symm.trans h
        · right; exact ⟨s, hs, hg2e.symm.trans h⟩
      · obtain ⟨e, he, hen, hed⟩ := hhead
        exact ⟨e, he, hen, by rw [hed]; simp⟩
      · intro e he hne
        exact hframe e (fsAppend_mem_other w.dir l.filename p sys.time e he hne) hne
      · rw [hcalls]; simp
      · intro n hmem
        rcases List.mem_cons.mp hmem with h | h
        · cases h
        · exact hnospawn n h

theorem countP_or_le {α : Type} (p q : α → Bool) (xs : List α) :
    xs.countP (fun x => p x || q x) ≤ xs.countP p + xs.countP q := by
  induction xs with
  | nil => simp
  | cons x xs ih =>
    simp only [List.countP_cons]
    cases hp : p x <;> cases hq : q x <;> simp <;> omega

theorem count_active_le_one (dir : List DirEntry) (fn : Name)
    (hn : (dir.map (fun e => e.name)).Nodup) :
    dir.countP (fun e => e.name == fn) ≤ 1 := by
  induction dir with
  | nil => simp
  | cons d ds ih =>
    rw [List.map_cons, List.nodup_cons] at hn
    rw [List.countP_cons]
    by_cases hd : d.name = fn
    · have hz : ds.countP (fun e => e.name == fn) = 0 := by
        rw [List.countP_eq_zero]
        intro e he h
        have : e.name = fn := by simpa using h
        exact hn.1 (by rw [hd, ← this]; exact List.mem_map_of_mem (fun e => e.name) he)
      rw [hz]
      simp [hd]
    · have : (d.name == fn) = false := by simpa using hd
      have := ih hn.2
      simp only [*, Bool.false_eq_true, if_false]
      omega

theorem sinkCount_le (l : Logger) (dir : List DirEntry)
    (hn : (dir.map (fun e => e.name)).Nodup) :
    sinkCount l dir ≤ (rotated l dir).length + 1 := by
  have h1 := countP_or_le (fun e : DirEntry => e.name == l.filename) (isRotated l) dir
  have h2 := count_active_le_one dir l.filename hn
  have h3 : (rotated l dir).length = dir.countP (isRotated l) := by
    unfold rotated
    rw [List.countP_eq_length_filter]
  unfold sinkCount isSinkFile
  omega

/-- C4, as the code does it. A run of writes on a sink with compression
off whose handle is open, in a directory with unique names that holds the
active file, in which every call succeeds, the rotations get pairwise different stamps
whose rotated names are not in the directory, and the rotated files of the
start and the rotations together are at most maxFiles, returns, and leaves
in the active and the rotated files together the bytes of the start plus
the payload lengths; the payloads, in the order written, are cut into
consecutive groups, one more than the rotations, each group whole under a
name of its own in a directory of unique names: the first group after
the content that the active file had at the start, every other group as
the whole content of its file.  No compression task is started. -/
theorem runWrites_conserves (ws : List (Sys × Bytes)) (l : Logger) (w : World)
    (a : DirEntry) (hopen : l.fileOpen = true) (hcomp : l.compress = false)
    (hn : (w.dir.map (fun e => e.name)).Nodup) (ha : a ∈ w.dir)
    (han : a.name = l.filename) (hadir : a.isDir = false) (hok : ∀ x ∈ ws, AllOk x.1)
    (hst : (rotationStamps l.maxSize l.size ws).Nodup)
    (hfr : ∀ s ∈ rotationStamps l.maxSize l.size ws, ∀ e ∈ w.dir,
      e.name ≠ l.filename ++ ['.'] ++ s)
    (hcnt : ((rotated l w.dir).length : Int) +
      ((rotationStamps l.maxSize l.size ws).length : Int) ≤ l.maxFiles) :
    ∃ (l2 : Logger) (w2 : World) (groups : List (Name × List Bytes)),
      runWrites ws l w = some (l2, w2) ∧
      sinkBytes l w2.dir = sinkBytes l w.dir + (ws.map (fun x => x.2.length)).sum ∧
      (w.dir = [a] → sinkBytes l w2.dir = a.data.length + (ws.map (fun x => x.2.length)).sum) ∧
      (w2.dir.map (fun e => e.name)).Nodup ∧
      (groups.map (fun g => g.2)).flatten = ws.map (fun x => x.2) ∧
      (groups.map (fun g => g.1)).Nodup ∧
      groups.length = (rotationStamps l.maxSize l.size ws).length + 1 ∧
      (∀ (i : Nat) (g : Name × List Bytes), groups[i]? = some g →
        ∃ e ∈ w2.dir, e.name = g.1 ∧
          e.data = (if i = 0 then a.data else []) ++ g.2.flatten) ∧
      (∃ calls, w2.trace = w.trace ++ calls ∧ ∀ n, Call.spawn n ∉ calls) := by
  have hsc := sinkCount_le l w.dir hn
  obtain ⟨l2, w2, g0, gs, hrun, hn2, hbytes, hflat, hnames, _, hhead, htail, _, hlen,
      htrace⟩ :=
    runWrites_layout ws l w a hopen hcomp hn ha han hadir hok hst
      (by
        intro s hs hmem
        obtain ⟨e, he, hen⟩ := List.mem_map.mp hmem
        exact hfr s hs e he hen)
      (by omega)
  refine ⟨l2, w2, g0 :: gs, hrun, hbytes, ?_, hn2, ?_, hnames, ?_, ?_, htrace⟩
  · intro hw
    rw [hbytes, hw]
    simp [sinkBytes, isSinkFile, han]
  · simpa using hflat
  · simp [hlen]
  · intro i g hg
    cases i with
    | zero =>
      rw [List.getElem?_cons_zero] at hg
      cases hg
      simpa using hhead
    | succ j =>
      rw [List.getElem?_cons_succ] at hg
      have := htail g (List.getElem?_mem hg)
      simpa using this

/-- C4 at three writes of 60, 50 and 70 bytes, with two rotations of
different stamps, on a sink with a threshold of 100 and five retained
files. -/
theorem runWrites_conserves_witness :
    ∃ (l2 : Logger) (w2 : World) (groups : List (Name × List Bytes)),
      runWrites spacedWrites roomyLogger (freshWorld []) = some (l2, w2) ∧
      sinkBytes roomyLogger w2.dir = sinkBytes roomyLogger (freshWorld []).dir +
        (spacedWrites.map (fun x => x.2.length)).sum ∧
      ((freshWorld []).dir = [emptyActive] →
        sinkBytes roomyLogger w2.dir =
          emptyActive.data.length + (spacedWrites.map (fun x => x.2.length)).sum) ∧
      (w2.dir.map (fun e => e.name)).Nodup ∧
      (groups.map (fun g => g.2)).flatten = spacedWrites.map (fun x => x.2) ∧
      (groups.map (fun g => g.1)).Nodup ∧
      groups.length =
        (rotationStamps roomyLogger.maxSize roomyLogger.size spacedWrites).length + 1 ∧
      (∀ (i : Nat) (g : Name × List Bytes), groups[i]? = some g →
        ∃ e ∈ w2.dir, e.name = g.1 ∧
          e.data = (if i = 0 then emptyActive.data else []) ++ g.2.flatten) ∧
      (∃ calls, w2.trace = (freshWorld []).trace ++ calls ∧ ∀ n, Call.spawn n ∉ calls) :=
  runWrites_conserves spacedWrites roomyLogger (freshWorld []) emptyActive
    rfl rfl (by decide) (by decide) rfl rfl
    (by
      intro x hx
      simp only [spacedWrites, List.mem_cons, List.mem_singleton, List.not_mem_nil,
        or_false] at hx
      rcases hx with rfl | rfl | rfl
      · exact ⟨rfl, rfl, rfl, fun _ => rfl, fun _ => rfl, rfl, rfl⟩
      · exact ⟨rfl, rfl, rfl, fun _ => rfl, fun _ => rfl, rfl, rfl⟩
      · exact ⟨rfl, rfl, rfl, fun _ => rfl, fun _ => rfl, rfl, rfl⟩)
    (by decide) (by decide) (by decide)

/-- C4, counterexample. Three complete writes of 60, 50 and 70
bytes with two rotations, fewer than maxFiles = 5, but both rotations inside
one second: the second Rename replaces the file of the first, and the
directory ends with 120 bytes in two files instead of 180. -/
theorem runWrites_same_second_loses_bytes :
    (runWrites hastyWrites roomyLogger (freshWorld [])).map
      (fun r => (r.2.dir.map (fun e => (e.name, e.data.length)),
        sinkBytes roomyLogger r.2.dir)) =
      some ([("app.log.20240101-000002".toList, 50), ("app.log".toList, 70)], 120) ∧
    (hastyWrites.map (fun x => x.2.length)).sum = 180 := by
  decide

/-- Five rotations on a sink with maxFiles = 3: the three files rotated last
are left beside the active file. -/
theorem five_rotations_keep_three :
    (runWrites fiveRotations (smallLogger 0) (freshWorld [])).map
      (fun r => r.2.dir.map (fun e => (String.mk e.name, e.data.length))) =
      some [("app.log.20240101-000003", 100), ("app.log.20240101-000004", 100),
            ("app.log.20240101-000005", 100), ("app.log", 100)] := by
  decide

/-! ## Lists in ascending order of the key -/

theorem lastN_length_le {α : Type} (m : Nat) (xs : List α) : (lastN m xs).length ≤ m := by
  unfold lastN
  rw [List.length_drop]
  omega

theorem lastN_length {α : Type} (m : Nat) (xs : List α) :
    (lastN m xs).length = min xs.length m := by
  unfold lastN
  rw [List.length_drop]
  omega

theorem lastN_of_le {α : Type} (m : Nat) (xs : List α) (h : xs.length ≤ m) :
    lastN m xs = xs := by
  unfold lastN
  have : xs.length - m = 0 := by omega
  rw [this, List.drop_zero]

theorem lastN_map {α β : Type} (f : α → β) (m : Nat) (xs : List α) :
    (lastN m xs).map f = lastN m (xs.map f) := by
  unfold lastN
  rw [List.map_drop, List.length_map]

theorem lastN_sublist {α : Type} (m : Nat) (xs : List α) : List.Sublist (lastN m xs) xs := by
  unfold lastN
  exact List.drop_sublist _ _

theorem lastN_lastN_append {α : Type} (m : Nat) (xs ys : List α) :
    lastN m (lastN m xs ++ ys) = lastN m (xs ++ ys) := by
  unfold lastN
  rw [← List.drop_append_of_le_length (Nat.sub_le _ _), List.drop_drop]
  congr 1
  simp only [List.length_drop, List.length_append]
  omega

/-- In a list in strictly ascending order of the key, the elements with
fewer than m larger keys are the last m. -/
theorem filter_rank_ascending {α : Type} (key : α → Nat) (s : List α)
    (hs : s.Pairwise (fun a b => key a < key b)) (m : Nat) :
    s.filter (fun x => decide ((s.filter (fun y => decide (key x < key y))).length < m)) =
      lastN m s := by
  induction s with
  | nil => simp [lastN]
  | cons a t ih =>
    rw [List.pairwise_cons] at hs
    have ha : (a :: t).filter (fun y => decide (key a < key y)) = t := by
      rw [List.filter_cons]
      simp only [Nat.lt_irrefl, decide_False, Bool.false_eq_true, if_false]
      rw [List.filter_eq_self]
      intro y hy
      simpa using hs.1 y hy
    have ht : t.filter (fun x =>
        decide (((a :: t).filter (fun y => decide (key x < key y))).length < m)) =
        t.filter (fun x => decide ((t.filter (fun y => decide (key x < key y))).length < m)) := by
      apply List.filter_congr
      intro x hx
      have hax := hs.1 x hx
      have : ¬ key x < key a := by omega
      rw [List.filter_cons]
      simp only [this, decide_False, Bool.false_eq_true, if_false]
    rw [List.filter_cons, ha, ht, ih hs.2]
    unfold lastN
    by_cases hlt : t.length < m
    · simp only [hlt, decide_True, if_true, List.length_cons]
      have h1 : t.length - m = 0 := by omega
      have h2 : t.length + 1 - m = 0 := by omega
      rw [h1, h2, List.drop_zero, List.drop_zero]
    · simp only [hlt, decide_False, Bool.false_eq_true, if_false, List.length_cons]
      have h2 : t.length + 1 - m = (t.length - m) + 1 := by omega
      rw [h2, List.drop_succ_cons]

/-! ## A rotation with its retention pass -/

theorem nodup_split (pre post : List DirEntry) (a : DirEntry)
    (hn : ((pre ++ a :: post).map (fun e => e.name)).Nodup) :
    (∀ e ∈ pre, e.name ≠ a.name) ∧ (∀ e ∈ post, e.name ≠ a.name) := by
  rw [List.map_append, List.map_cons, List.nodup_middle, List.nodup_cons] at hn
  constructor
  · intro e he h
    exact hn.1 (List.mem_append_left _ (h ▸ List.mem_map_of_mem (fun e => e.name) he))
  · intro e he h
    exact hn.1 (List.mem_append_right _ (h ▸ List.mem_map_of_mem (fun e => e.name) he))

theorem map_rename_absent (xs : List DirEntry) (old new : Name)
    (h : ∀ e ∈ xs, e.name ≠ old) : xs.map (renameEntry old new) = xs := by
  rw [List.map_congr_left (g := id), List.map_id]
  intro e he
  have : (e.name == old) = false := by simpa using h e he
  simp [renameEntry, this]

theorem map_rename_split (pre post : List DirEntry) (a : DirEntry) (old new : Name)
    (hn : ((pre ++ a :: post).map (fun e => e.name)).Nodup) (han : a.name = old) :
    (pre ++ a :: post).map (renameEntry old new) = pre ++ { a with name := new } :: post := by
  obtain ⟨h1, h2⟩ := nodup_split pre post a hn
  rw [han] at h1 h2
  rw [List.map_append, List.map_cons, map_rename_absent pre old new h1,
    map_rename_absent post old new h2]
  simp [renameEntry, han]

theorem fsAppend_split (pre post : List DirEntry) (a : DirEntry) (n : Name) (p : Bytes)
    (t : Nat) (hn : ((pre ++ a :: post).map (fun e => e.name)).Nodup) (han : a.name = n) :
    fsAppend (pre ++ a :: post) n p t =
      pre ++ { a with data := a.data ++ p, modTime := if p = [] then a.modTime else t } ::
        post := by
  obtain ⟨h1, h2⟩ := nodup_split pre post a hn
  rw [han] at h1 h2
  have e1 := fsAppend_absent pre n p t h1
  have e2 := fsAppend_absent post n p t h2
  unfold fsAppend at e1 e2 ⊢
  rw [List.map_append, List.map_cons, e1, e2]
  simp [han]

theorem rotated_split (l : Logger) (pre post : List DirEntry) (a : DirEntry)
    (han : a.name = l.filename) (hpost : rotated l post = []) :
    rotated l (pre ++ a :: post) = rotated l pre := by
  unfold rotated at hpost ⊢
  rw [List.filter_append, List.filter_cons, active_not_rotated l a han, hpost]
  simp

theorem rotated_split_renamed (l : Logger) (sys : Sys) (pre post : List DirEntry)
    (a : DirEntry) (hadir : a.isDir = false) (hpost : rotated l post = []) :
    rotated l (pre ++ { a with name := rotatedName l sys } :: post) =
      rotated l pre ++ [{ a with name := rotatedName l sys }] := by
  unfold rotated at hpost ⊢
  rw [List.filter_append, List.filter_cons,
    isRotated_rotatedName l sys { a with name := rotatedName l sys } hadir rfl, hpost]
  simp

theorem Write_rotate_retain (sys : Sys) (p : Bytes) (l : Logger) (w : World)
    (a : DirEntry) (pre post : List DirEntry)
    (hc : l.size + (p.length : Int) ≥ l.maxSize) (hopen : l.fileOpen = true)
    (hcomp : l.compress = false)
    (hm : 0 ≤ l.maxFiles) (hn : (w.dir.map (fun e => e.name)).Nodup)
    (hdir : w.dir = pre ++ a :: post) (han : a.name = l.filename)
    (hadir : a.isDir = false) (hpost : rotated l post = []) (hok : AllOk sys)
    (hfresh : ∀ e ∈ w.dir, e.name ≠ rotatedName l sys)
    (hinc : (rotated l w.dir).Pairwise (fun x y => x.modTime < y.modTime))
    (hlt : ∀ x ∈ rotated l w.dir, x.modTime < a.modTime) :
    ∃ (D5 : List DirEntry) (tr : List Call),
      Write sys p l w = some (p.length, false,
        { l with fileOpen := true, size := (p.length : Int) },
        { dir := D5 ++ [activeEntry l sys p], trace := tr }) ∧
      List.Sublist D5 (w.dir.map (renameEntry l.filename (rotatedName l sys))) ∧
      rotated l D5 = lastN l.maxFiles.toNat
        (rotated l w.dir ++ [{ a with name := rotatedName l sys }]) ∧
      (∃ calls, tr = w.trace ++ calls ∧ ∀ n, Call.spawn n ∉ calls) := by
  obtain ⟨hclose, hren, hrd, hstat, hrem, hop, hsw⟩ := hok
  have ha : a ∈ w.dir := by rw [hdir]; simp
  have hne := rotatedName_ne l sys
  have hfil : w.dir.filter (fun f => f.name != rotatedName l sys) = w.dir := by
    rw [List.filter_eq_self]
    intro e he
    simpa using hfresh e he
  have hfs := fsRename_ok w.dir l.filename (rotatedName l sys) a hn ha han hadir hne
    (fun t ht htn => absurd htn (hfresh t ht))
  rw [hfil] at hfs
  have hn3 := renamed_nodup w.dir l.filename (rotatedName l sys) hn
  rw [hfil] at hn3
  have hD3 : w.dir.map (renameEntry l.filename (rotatedName l sys)) =
      pre ++ { a with name := rotatedName l sys } :: post := by
    rw [hdir]
    exact map_rename_split pre post a l.filename (rotatedName l sys) (hdir ▸ hn) han
  have hrot : rotated l w.dir = rotated l pre := by
    rw [hdir]; exact rotated_split l pre post a han hpost
  have hrot3 : rotated l (w.dir.map (renameEntry l.filename (rotatedName l sys))) =
      rotated l w.dir ++ [{ a with name := rotatedName l sys }] := by
    rw [hD3, hrot]
    exact rotated_split_renamed l sys pre post a hadir hpost
  have hinc3 : (rotated l (w.dir.map (renameEntry l.filename (rotatedName l sys)))).Pairwise
      (fun x y => x.modTime < y.modTime) := by
    rw [hrot3, List.pairwise_append]
    refine ⟨hinc, by simp, ?_⟩
    intro x hx y hy
    rw [List.mem_singleton] at hy
    rw [hy]
    exact hlt x hx
  have ht3 : ((rotated l (w.dir.map (renameEntry l.filename (rotatedName l sys)))).map
      (fun e => e.modTime)).Nodup := by
    rw [List.Nodup, List.pairwise_map]
    exact hinc3.imp (fun h => Nat.ne_of_lt h)
  obtain ⟨w5, hcl, hd5⟩ := cleanup_dir sys l
    (afterRename sys l w (w.dir.map (renameEntry l.filename (rotatedName l sys)))) hrd hstat
    hrem hm (by rw [afterRename_dir]; exact hn3) (by rw [afterRename_dir]; exact ht3)
  rw [cleanup_ok2 sys l _ hrd hstat hm] at hcl
  have hw5 : afterCleanup sys l
      (afterRename sys l w (w.dir.map (renameEntry l.filename (rotatedName l sys)))) = w5 := by
    have := Option.some.inj hcl
    exact (Prod.mk.inj this).2
  rw [← hw5, afterRename_dir] at hd5
  have hnoact := renamed_no_active l sys w.dir
  have hfresh5 : ∀ e ∈ (afterCleanup sys l
      (afterRename sys l w (w.dir.map (renameEntry l.filename (rotatedName l sys))))).dir,
      e.name ≠ l.filename := by
    intro e he
    rw [hd5] at he
    exact hnoact e (List.mem_of_mem_filter he)
  have hW := Write_rotate_ok sys p l w _ hc hopen hclose hren hfs hrd hstat hm hop hsw hfresh5
  have hf : fsAppend ((afterCleanup sys l
      (afterRename sys l w (w.dir.map (renameEntry l.filename (rotatedName l sys))))).dir ++
      [freshEntry l.filename sys.time]) l.filename p sys.time =
      (afterCleanup sys l
        (afterRename sys l w (w.dir.map (renameEntry l.filename (rotatedName l sys))))).dir ++
        [activeEntry l sys p] := by
    have h1 := fsAppend_absent _ l.filename p sys.time hfresh5
    unfold fsAppend at h1 ⊢
    rw [List.map_append, h1]
    simp [freshEntry, activeEntry]
  rw [hf] at hW
  refine ⟨_, _, hW, ?_, ?_, ?_⟩
  rotate_left 2
  · refine ⟨[Call.close, Call.rename l.filename (rotatedName l sys), Call.readDir] ++
      (removedNames l (w.dir.map (renameEntry l.filename (rotatedName l sys)))).map
        Call.remove ++ [Call.openFile l.filename, Call.write p.length], ?_, ?_⟩
    · rw [afterCleanup_trace, afterRename_dir, afterRename_trace, hcomp]
      simp
    · intro n hmem
      simp at hmem
  · rw [hd5]
    exact List.filter_sublist _
  · rw [hd5, ← hrot3]
    rw [← filter_rank_ascending (fun e : DirEntry => e.modTime) _ hinc3 l.maxFiles.toNat]
    unfold rotated
    rw [List.filter_filter, List.filter_filter]
    apply List.filter_congr
    intro e _
    unfold newerCount rotated
    by_cases hr : isRotated l e = true <;> simp [hr]

/-! ## A run of rotations with retention -/

theorem runWrites_retain (ws : List (Sys × Bytes)) :
    ∀ (l : Logger) (w : World) (a : DirEntry) (pre post : List DirEntry),
      l.fileOpen = true → l.compress = false → 0 ≤ l.maxFiles →
      (w.dir.map (fun e => e.name)).Nodup → w.dir = pre ++ a :: post →
      a.name = l.filename → a.isDir = false → rotated l post = [] →
      (rotated l w.dir).Pairwise (fun x y => x.modTime < y.modTime) →
      (∀ x ∈ rotated l w.dir, x.modTime < a.modTime) →
      (rotated l w.dir).length ≤ l.maxFiles.toNat →
      (∀ x ∈ ws, AllOk x.1) →
      (rotationStamps l.maxSize l.size ws).Nodup →
      (∀ s ∈ rotationStamps l.maxSize l.size ws,
        (l.filename ++ ['.'] ++ s) ∉ w.dir.map (fun e => e.name)) →
      (∀ x ∈ ws, a.modTime < x.1.time) →
      ws.Pairwise (fun x y => x.1.time < y.1.time) →
      ∃ (l2 : Logger) (w2 : World), runWrites ws l w = some (l2, w2) ∧
        (rotated l w2.dir).map (fun e => e.name) =
          lastN l.maxFiles.toNat ((rotated l w.dir).map (fun e => e.name) ++
            rotNames l (rotationStamps l.maxSize l.size ws)) ∧
        (∃ calls, w2.trace = w.trace ++ calls ∧ ∀ n, Call.spawn n ∉ calls) := by
  induction ws with
  | nil =>
    intro l w a pre post _ _ _ _ _ _ _ _ _ _ hk _ _ _ _ _
    refine ⟨l, w, rfl, ?_, ⟨[], by simp, by simp⟩⟩
    simp only [rotationStamps, rotNames, List.map_nil, List.append_nil]
    rw [lastN_of_le]
    rw [List.length_map]
    exact hk
  | cons x ws ih =>
    obtain ⟨sys, p⟩ := x
    intro l w a pre post hopen hcomp hm hn hdir han hadir hpost hinc hlt hk hok hst hfr hT hTT
    have hsys := hok (sys, p) (List.mem_cons_self _ _)
    have hok2 : ∀ x ∈ ws, AllOk x.1 := fun x hx => hok x (List.mem_cons_of_mem _ hx)
    have hts : a.modTime < sys.time := hT (sys, p) (List.mem_cons_self _ _)
    have hT2 : ∀ x ∈ ws, a.modTime < x.1.time := fun x hx => hT x (List.mem_cons_of_mem _ hx)
    rw [List.pairwise_cons] at hTT
    have ha : a ∈ w.dir := by rw [hdir]; simp
    by_cases hc : l.size + (p.length : Int) ≥ l.maxSize
    · rw [rotationStamps_pos l.maxSize l.size sys p ws hc] at hst hfr ⊢
      have hrot : rotatedName l sys = l.filename ++ ['.'] ++ sys.stamp := rfl
      have hnotin : sys.stamp ∉ rotationStamps l.maxSize (p.length : Int) ws :=
        (List.nodup_cons.mp hst).1
      have hfresh : ∀ e ∈ w.dir, e.name ≠ rotatedName l sys := by
        intro e he h
        refine hfr sys.stamp (List.mem_cons_self _ _) ?_
        rw [← hrot, ← h]
        exact List.mem_map_of_mem (fun e => e.name) he
      obtain ⟨D5, tr, hW, hsub, hrotD5, calls1, htr1, hns1⟩ :=
        Write_rotate_retain sys p l w a pre post hc hopen hcomp hm hn hdir han hadir hpost
          hsys hfresh hinc hlt
      have hsub2 : List.Sublist (D5 ++ [activeEntry l sys p])
          (w.dir.map (renameEntry l.filename (rotatedName l sys)) ++ [activeEntry l sys p]) :=
        hsub.append_right _
      have hn1 : ((D5 ++ [activeEntry l sys p]).map (fun e => e.name)).Nodup :=
        (hsub2.map (fun e => e.name)).nodup (rotStep_nodup l sys p w.dir hn hfresh)
      have hrot1 : rotated l (D5 ++ [activeEntry l sys p]) =
          lastN l.maxFiles.toNat (rotated l w.dir ++ [{ a with name := rotatedName l sys }]) := by
        rw [← hrotD5]
        exact rotated_split l D5 [] (activeEntry l sys p) rfl rfl
      have hinc3 : List.Pairwise (fun (x y : DirEntry) => x.modTime < y.modTime)
          (rotated l w.dir ++ [{ a with name := rotatedName l sys }]) := by
        rw [List.pairwise_append]
        refine ⟨hinc, by simp, ?_⟩
        intro x hx y hy
        rw [List.mem_singleton] at hy
        rw [hy]
        exact hlt x hx
      have IH := ih { l with fileOpen := true, size := (p.length : Int) }
        { dir := D5 ++ [activeEntry l sys p], trace := tr } (activeEntry l sys p) D5 []
        rfl hcomp hm hn1 rfl rfl rfl rfl
        (by
          show (rotated l (D5 ++ [activeEntry l sys p])).Pairwise
            (fun x y => x.modTime < y.modTime)
          rw [hrot1]
          exact hinc3.sublist (lastN_sublist _ _))
        (by
          show ∀ x ∈ rotated l (D5 ++ [activeEntry l sys p]),
            x.modTime < (activeEntry l sys p).modTime
          rw [hrot1]
          intro x hx
          have hx2 := (lastN_sublist _ _).subset hx
          show x.modTime < sys.time
          rcases List.mem_append.mp hx2 with h | h
          · have := hlt x h; omega
          · rw [List.mem_singleton] at h
            rw [h]; exact hts)
        (by
          show (rotated l (D5 ++ [activeEntry l sys p])).length ≤ l.maxFiles.toNat
          rw [hrot1]
          exact lastN_length_le _ _)
        hok2 (List.nodup_cons.mp hst).2
        (by
          intro s hs hmem
          have hmem2 := (hsub2.map (fun e => e.name)).subset hmem
          rcases rotStep_names l sys p w.dir _ hmem2 with h | h | h
          · exact stamp_name_ne l.filename s h.symm
          · rw [hrot] at h
            have := stamp_name_inj l.filename s sys.stamp h
            rw [this] at hs
            exact hnotin hs
          · exact hfr s (List.mem_cons_of_mem _ hs) h)
        (by
          intro x hx
          show sys.time < x.1.time
          exact hTT.1 x hx)
        hTT.2
      obtain ⟨l2, w2, hrun, hnames, calls2, htr2, hns2⟩ := IH
      refine ⟨l2, w2, ?_, ?_, ⟨calls1 ++ calls2, ?_, ?_⟩⟩
      · unfold runWrites
        rw [hW]
        exact hrun
      · have hnm : (rotated l w2.dir).map (fun e => e.name) =
            lastN l.maxFiles.toNat ((rotated l (D5 ++ [activeEntry l sys p])).map
              (fun e => e.name) ++
              rotNames l (rotationStamps l.maxSize (p.length : Int) ws)) := hnames
        rw [hnm, hrot1, lastN_map, lastN_lastN_append]
        simp [rotNames, rotatedName, List.append_assoc]
      · rw [htr2]
        show tr ++ calls2 = w.trace ++ (calls1 ++ calls2)
        rw [htr1, List.append_assoc]
      · intro n hmem
        rcases List.mem_append.mp hmem with h | h
        · exact hns1 n h
        · exact hns2 n h
    · rw [rotationStamps_neg l.maxSize l.size sys p ws hc] at hst hfr ⊢
      have hW := Write_append_ok sys p l w (by omega) hopen hsys.2.2.2.2.2.2
      have hsp := fsAppend_split pre post a l.filename p sys.time (hdir ▸ hn) han
      rw [← hdir] at hsp
      have hrotw : rotated l w.dir = rotated l pre := by
        rw [hdir]; exact rotated_split l pre post a han hpost
      have hrot1 : rotated l (fsAppend w.dir l.filename p sys.time) = rotated l w.dir := by
        rw [hsp, hrotw]
        exact rotated_split l pre post _ han hpost
      have IH := ih { l with size := l.size + (p.length : Int) }
        { dir := fsAppend w.dir l.filename p sys.time,
          trace := w.trace ++ [Call.write p.length] }
        { a with data := a.data ++ p, modTime := if p = [] then a.modTime else sys.time }
        pre post hopen hcomp hm (by rw [fsAppend_names]; exact hn) hsp han hadir hpost
        (by
          show (rotated l (fsAppend w.dir l.filename p sys.time)).Pairwise
            (fun x y => x.modTime < y.modTime)
          rw [hrot1]; exact hinc)
        (by
          show ∀ x ∈ rotated l (fsAppend w.dir l.filename p sys.time),
            x.modTime < (if p = [] then a.modTime else sys.time)
          rw [hrot1]
          intro x hx
          have := hlt x hx
          split <;> omega)
        (by
          show (rotated l (fsAppend w.dir l.filename p sys.time)).length ≤ l.maxFiles.toNat
          rw [hrot1]; exact hk)
        hok2 hst
        (by simp only [fsAppend_names]; exact hfr)
        (by
          intro x hx
          show (if p = [] then a.modTime else sys.time) < x.1.time
          have h1 := hT2 x hx
          have h2 : sys.time < x.1.time := hTT.1 x hx
          split <;> omega)
        hTT.2
      obtain ⟨l2, w2, hrun, hnames, calls2, htr2, hns2⟩ := IH
      refine ⟨l2, w2, ?_, ?_, ⟨Call.write p.length :: calls2, ?_, ?_⟩⟩
      · unfold runWrites
        rw [hW]
        exact hrun
      · have hnm : (rotated l w2.dir).map (fun e => e.name) =
            lastN l.maxFiles.toNat ((rotated l (fsAppend w.dir l.filename p sys.time)).map
              (fun e => e.name) ++
              rotNames l (rotationStamps l.maxSize (l.size + (p.length : Int)) ws)) := hnames
        rw [hnm, hrot1]
      · rw [htr2]; simp
      · intro n hmem
        rcases List.mem_cons.mp hmem with h | h
        · cases h
        · exact hns2 n h

theorem rotated_nil_post (l : Logger) (pre post : List DirEntry) (a : DirEntry)
    (h : rotated l (pre ++ a :: post) = []) : rotated l post = [] := by
  unfold rotated at h ⊢
  rw [List.filter_eq_nil_iff] at h ⊢
  intro e he
  exact h e (List.mem_append_right _ (List.mem_cons_of_mem _ he))

/-- C5, as the code does it. One pass: when the listing, every os.Stat and
every os.Remove succeed, the names of the directory are unique and the
entries that are not directories and whose name is the base name of the
active file followed by a dot have pairwise distinct modification times,
cleanup returns without error and leaves min(k, maxFiles) of these k entries,
the most recently modified ones (an entry is left exactly when it was there
and, if it is one of them, fewer than maxFiles of them are newer); a
directory, an entry without that beginning and the active path are left in
place.  Runs: on a sink with compression off and an open handle, in a
directory with unique names that holds the active file and no rotated file,
for a run of writes in which every call succeeds, the clock advances from
write to write, and the rotations get pairwise different stamps whose
rotated names are not in the directory, the run returns and the rotated
files left are those of the last min(N, maxFiles) of the N rotations, in
the order of the rotations; with maxFiles = 3 and N > 3 they are exactly
three, those rotated last.  No compression task is started. -/
theorem retention_keeps_newest (sys : Sys) (l : Logger) (w : World)
    (ws : List (Sys × Bytes)) (l0 : Logger) (w0 : World) (a : DirEntry) :
    (sys.readDirErr = false → (∀ n, sys.statErr n = false) →
      (∀ n, sys.removeErr n = false) → 0 ≤ l.maxFiles →
      (w.dir.map (fun e => e.name)).Nodup →
      ((rotated l w.dir).map (fun e => e.modTime)).Nodup →
      ∃ w2, cleanup sys l w = some (false, w2) ∧
        (∀ e, e ∈ w2.dir ↔
          e ∈ w.dir ∧ (isRotated l e = true → newerCount l w.dir e < l.maxFiles.toNat)) ∧
        (rotated l w2.dir).length = min (rotated l w.dir).length l.maxFiles.toNat ∧
        (∀ e ∈ w.dir, e.isDir = true ∨ startsWith e.name (l.filename ++ ['.']) = false ∨
          e.name = l.filename → e ∈ w2.dir)) ∧
    (l0.fileOpen = true → l0.compress = false → 0 ≤ l0.maxFiles →
      (w0.dir.map (fun e => e.name)).Nodup → a ∈ w0.dir → a.name = l0.filename →
      a.isDir = false → rotated l0 w0.dir = [] → (∀ x ∈ ws, AllOk x.1) →
      (rotationStamps l0.maxSize l0.size ws).Nodup →
      (∀ s ∈ rotationStamps l0.maxSize l0.size ws, ∀ e ∈ w0.dir,
        e.name ≠ l0.filename ++ ['.'] ++ s) →
      (∀ x ∈ ws, a.modTime < x.1.time) →
      ws.Pairwise (fun x y => x.1.time < y.1.time) →
      ∃ (l2 : Logger) (w2 : World), runWrites ws l0 w0 = some (l2, w2) ∧
        (rotated l0 w2.dir).map (fun e => e.name) =
          lastN l0.maxFiles.toNat (rotNames l0 (rotationStamps l0.maxSize l0.size ws)) ∧
        (rotated l0 w2.dir).length =
          min (rotationStamps l0.maxSize l0.size ws).length l0.maxFiles.toNat ∧
        (l0.maxFiles = 3 → 3 < (rotationStamps l0.maxSize l0.size ws).length →
          (rotated l0 w2.dir).length = 3 ∧
          (rotated l0 w2.dir).map (fun e => e.name) =
            (rotNames l0 (rotationStamps l0.maxSize l0.size ws)).drop
              ((rotationStamps l0.maxSize l0.size ws).length - 3)) ∧
        (∃ calls, w2.trace = w0.trace ++ calls ∧ ∀ n, Call.spawn n ∉ calls)) := by
  constructor
  · intro hrd hstat hrem hm hn ht
    obtain ⟨w2, h1, h2, h3, h4, _⟩ := cleanup_pass_keeps_newest sys l w hrd hstat hrem hm hn ht
    exact ⟨w2, h1, h2, h3, h4⟩
  · intro hopen hcomp hm hn ha han hadir hrot hok hst hfr hT hTT
    obtain ⟨pre, post, hdir⟩ := List.append_of_mem ha
    have hpost : rotated l0 post = [] := rotated_nil_post l0 pre post a (hdir ▸ hrot)
    obtain ⟨l2, w2, hrun, hnames, htrace⟩ :=
      runWrites_retain ws l0 w0 a pre post hopen hcomp hm hn hdir han hadir hpost
        (by rw [hrot]; exact List.Pairwise.nil)
        (by rw [hrot]; intro x hx; cases hx)
        (by rw [hrot]; exact Nat.zero_le _)
        hok hst
        (by
          intro s hs hmem
          obtain ⟨e, he, hen⟩ := List.mem_map.mp hmem
          exact hfr s hs e he hen)
        hT hTT
    rw [hrot, List.map_nil, List.nil_append] at hnames
    have hlen : (rotated l0 w2.dir).length =
        min (rotationStamps l0.maxSize l0.size ws).length l0.maxFiles.toNat := by
      have := congrArg List.length hnames
      rw [List.length_map, lastN_length] at this
      rw [this]
      simp [rotNames]
    refine ⟨l2, w2, hrun, hnames, hlen, ?_, htrace⟩
    intro h3 hN
    have h4 : l0.maxFiles.toNat = 3 := by rw [h3]; rfl
    constructor
    · rw [hlen, h4]; omega
    · rw [hnames, h4]
      simp [lastN, rotNames]

/-- C5 at a directory with five rotated files, and at a run of five
rotations at increasing times with different stamps, with maxFiles = 3. -/
theorem retention_keeps_newest_witness :
    (∃ w2, cleanup (okSys "s" 70) (smallLogger 0) crowdedWorld = some (false, w2) ∧
      (rotated (smallLogger 0) w2.dir).length = 3) ∧
    (∃ (l2 : Logger) (w2 : World),
      runWrites fiveRotations (smallLogger 0) (freshWorld []) = some (l2, w2) ∧
      (rotated (smallLogger 0) w2.dir).map (fun e => e.name) =
        ["app.log.20240101-000003".toList, "app.log.20240101-000004".toList,
         "app.log.20240101-000005".toList]) := by
  obtain ⟨h1, h2⟩ := retention_keeps_newest (okSys "s" 70) (smallLogger 0) crowdedWorld
    fiveRotations (smallLogger 0) (freshWorld []) emptyActive
  constructor
  · obtain ⟨w2, hc, _, hlen, _⟩ := h1 rfl (fun _ => rfl) (fun _ => rfl) (by decide)
      (by decide) (by decide)
    exact ⟨w2, hc, by rw [hlen]; decide⟩
  · obtain ⟨l2, w2, hrun, hnames, _⟩ := h2 rfl rfl (by decide) (by decide) (by decide) rfl rfl
      (by decide)
      (by
        intro x hx
        simp only [fiveRotations, List.mem_cons, List.mem_singleton, List.not_mem_nil,
          or_false] at hx
        rcases hx with rfl | rfl | rfl | rfl | rfl <;>
        exact ⟨rfl, rfl, rfl, fun _ => rfl, fun _ => rfl, rfl, rfl⟩)
      (by decide) (by decide) (by decide) (by decide)
    exact ⟨l2, w2, hrun, by rw [hnames]; decide⟩

/-- C5, counterexample. In a directory with pairwise distinct modification
times that holds a directory named like a rotated file, six entries have
the beginning of a rotated name before cleanup with maxFiles = 3 and four
after it, not min(6, 3); five rotations inside one second, with
maxFiles = 3, leave one rotated file, since each Rename replaces the file of
the rotation before; and five rotations with different stamps under a clock
that goes backwards leave the second, third and fourth rotated file, not the
three rotated last, since the pass orders by modification time. -/
theorem retention_count_counterexample :
    (crowdedWorld.dir.map (fun e => e.modTime)).Nodup ∧
    (crowdedWorld.dir.filter (nameMatches (smallLogger 0))).length = 6 ∧
    (cleanup (okSys "s" 70) (smallLogger 0) crowdedWorld).map
      (fun r => (r.1, (r.2.dir.filter (nameMatches (smallLogger 0))).length)) =
      some (false, 4) ∧
    (runWrites sameSecondFive (smallLogger 0) (freshWorld [])).map
      (fun r => (rotated (smallLogger 0) r.2.dir).map
        (fun e => (String.mk e.name, e.data.length))) =
      some [("app.log.20240101-000001", 100)] ∧
    (runWrites backwardFive (smallLogger 0) (freshWorld [])).map
      (fun r => (rotated (smallLogger 0) r.2.dir).map (fun e => String.mk e.name)) =
      some ["app.log.20240101-000002", "app.log.20240101-000003",
            "app.log.20240101-000004"] := by
  decide

/-! ## The compression task and the retention pass -/

/-- With compression on, the goroutine that rotate has started can create the
compressed file before cleanup lists the directory.  On a sink with
maxFiles = 1 whose directory held the active file alone, the listing then
has the rotated file and the newer compressed file, and cleanup removes the
file just rotated. -/
theorem cleanup_after_compressor_create :
    (fsRename (freshWorld (payload 60)).dir "app.log".toList
        "app.log.20240101-000002".toList).bind
      (fun d => fsCreate d "app.log.20240101-000002.gz".toList 4) =
      some [{ name := "app.log.20240101-000002".toList, isDir := false, modTime := 1,
              data := payload 60 },
            { name := "app.log.20240101-000002.gz".toList, isDir := false, modTime := 4,
              data := [] }] ∧
    (cleanup (okSys "20240101-000002" 4) compressingLogger
      { dir := [{ name := "app.log.20240101-000002".toList, isDir := false, modTime := 1,
                  data := payload 60 },
                { name := "app.log.20240101-000002.gz".toList, isDir := false, modTime := 4,
                  data := [] }],
        trace := [] }).map (fun r => r.2.dir.map (fun e => String.mk e.name)) =
      some ["app.log.20240101-000002.gz"] := by
  decide

end Zapm
